import Mathlib

/-! # Phusion Passenger Enterprise license check (`src/cxx_supportlib/Utils/License.c`)

A shallow embedding of `License.c`.  Bytes are natural numbers below 256, a C
string is the list of its bytes without the terminating NUL, and a pointer into
a C string is an index into that list.  A computation has type `Option _`:
`none` stands for a run that leaves defined behaviour (a read outside a
buffer) or that exhausts the iteration bound of a loop; the theorems show that
neither happens.

The expired branch of `passenger_enterprise_license_check` frees `licenseKey`
and then reads through `expiresAfter`, a pointer into the freed block. The bytes
found there are indeterminate: they are inputs of the model (the fields
`freedAtStrlen` and `freedAtSnprintf` of `World`), not the bytes of the body.

Assumptions of the model: `malloc` and `strdup` succeed, the writes to the
temporary file of `open_license_file` succeed (the code ignores their return
values), and `localtime` returns a value.
-/

namespace License

/-! ## Constants -/

/-- Bytes of a C string literal (all literals of the file are ASCII). -/
def bytes (s : String) : List Nat := s.toList.map Char.toNat

/-- `#define MAX_LICENSE_LINES 30`. -/
def MAX_LICENSE_LINES : Nat := 30

/-- `#define LICENSE_SECRET "..."`. -/
def LICENSE_SECRET : List Nat :=
  bytes "An error occurred while fetching this page. Please contact an administrator if this problem persists."

/-- `#define EXPIRES_AFTER_KEY "Expires after:"`. -/
def EXPIRES_AFTER_KEY : List Nat := bytes "Expires after:"

/-- Modelled from the spec: `MD5_SIZE` is declared in `MD5.h`, which is not part
of the sources at hand; the digest is the 16 bytes of an MD5 value. -/
def MD5_SIZE : Nat := 16

/-- Modelled from the spec: the digest primitive of `MD5.h` (`md5_init`,
`md5_append`, `md5_finish`) is a black box that maps the concatenation of the
appended byte sequences to `MD5_SIZE` bytes. -/
structure MD5 where
  /-- Digest of the appended bytes. -/
  digest : List Nat → List Nat
  /-- The digest fills the `md5_byte_t digest[MD5_SIZE]` array. -/
  size_eq : ∀ m, (digest m).length = MD5_SIZE
  /-- Every element is an `md5_byte_t` (`unsigned char`). -/
  byte_lt : ∀ m, ∀ b ∈ digest m, b < 256

/-- Modelled from the spec: `APPEAL_MESSAGE` and `EXPIRED_APPEAL_MESSAGE` are
string macros of `License.h`, which is not part of the sources at hand; they are
the two fixed contact-for-support suffixes of the diagnostics. -/
structure LicenseH where
  /-- The general support suffix. -/
  APPEAL_MESSAGE : List Nat
  /-- The support suffix of the expired diagnostic. -/
  EXPIRED_APPEAL_MESSAGE : List Nat

/-! ## C library functions used by the file -/

/-- The C string held in a buffer: the bytes before the first NUL
(`strlen` is its length, `strdup` copies it). -/
def cstr (buf : List Nat) : List Nat := buf.takeWhile (fun c => c != 0)

/-- Read `s[i]` of a C string stored in `strlen s + 1` bytes: index `strlen s`
holds the terminating NUL, any larger index is outside the object. -/
def charAt (s : List Nat) (i : Nat) : Option Nat :=
  if i ≤ s.length then some (s.getD i 0) else none

/-- First `strstr(haystack, needle)` match, as an offset; `none` is `NULL`. -/
def strstr : List Nat → List Nat → Option Nat
  | [], needle => if needle.isPrefixOf [] then some 0 else none
  | c :: hay, needle =>
    if needle.isPrefixOf (c :: hay) then some 0 else (strstr hay needle).map (· + 1)

/-- Comparison `strcmp(a, b)` of two C strings as unsigned bytes; the end of a
string is its NUL. Only the sign of the result is meaningful. -/
def strcmp : List Nat → List Nat → Int
  | [], [] => 0
  | [], b :: _ => 0 - (b : Int)
  | a :: _, [] => (a : Int)
  | a :: s, b :: t => if a = b then strcmp s t else (a : Int) - (b : Int)

/-- Comparison `memcmp(a, b, n)` of the first `n` bytes of two buffers that hold
at least `n` bytes. -/
def memcmp : List Nat → List Nat → Nat → Int
  | a :: s, b :: t, n + 1 => if a = b then memcmp s t n else (a : Int) - (b : Int)
  | _, _, _ => 0

/-- Decimal digits of a natural number, most significant first, with `fuel`
bounding the number of digits. -/
def decimalAux : Nat → Nat → List Nat → List Nat
  | 0, _, acc => acc
  | fuel + 1, n, acc =>
    if n < 10 then (48 + n) :: acc else decimalAux fuel (n / 10) ((48 + n % 10) :: acc)

/-- Decimal digits of a natural number as ASCII. -/
def decimal (n : Nat) : List Nat := decimalAux (n + 1) n []

/-- Left padding with `'0'` up to `width` characters. -/
def zeroPad (width : Nat) (digits : List Nat) : List Nat :=
  List.replicate (width - digits.length) 48 ++ digits

/-- Conversion `%d` of `printf`. -/
def printf_d (x : Int) : List Nat :=
  if x < 0 then 45 :: decimal x.natAbs else decimal x.natAbs

/-- Conversion `%02d` of `printf`: the sign counts towards the width and the
zeros follow it. -/
def printf_02d (x : Int) : List Nat :=
  if x < 0 then 45 :: zeroPad 1 (decimal x.natAbs) else zeroPad 2 (decimal x.natAbs)

/-- Value of an `int` expression: two's complement on 32 bits. -/
def toInt32 (x : Int) : Int := (x + 2147483648) % 4294967296 - 2147483648

/-- The fields of `struct tm` that the file reads. -/
structure Tm where
  /-- Years since 1900. -/
  tm_year : Int
  /-- Months since January, 0 to 11. -/
  tm_mon : Int
  /-- Day of the month, 1 to 31. -/
  tm_mday : Int
deriving DecidableEq, Repr

/-- An open `FILE *`: the bytes not yet read, and whether reading past them
reports a read error instead of end-of-file. -/
structure File where
  /-- Bytes not yet read. -/
  data : List Nat
  /-- The stream ends in a read error, not in end-of-file. -/
  ioError : Bool
deriving DecidableEq, Repr

/-- The characters one `fgets` call consumes: at most `n`, up to and including
the first newline; returns them and the unread remainder. -/
def readChunk : Nat → List Nat → List Nat × List Nat
  | 0, rest => ([], rest)
  | _ + 1, [] => ([], [])
  | n + 1, c :: rest =>
    if c = 10 then ([c], rest) else (c :: (readChunk n rest).1, (readChunk n rest).2)

/-- Call `fgets(line, size, f)`: `none` is a `NULL` return (end-of-file before
any character, or a read error); otherwise the characters stored in `line`
before the terminating NUL, and the stream after the call. -/
def fgets (size : Nat) (f : File) : Option (List Nat × File) :=
  let r := readChunk (size - 1) f.data
  if r.1.getLast? = some 10 ∨ r.1.length = size - 1 then
    some (r.1, { f with data := r.2 })
  else if f.ioError then none
  else if r.1 = [] then none
  else some (r.1, { f with data := r.2 })

/-- Call `ferror(f)` after `fgets` returned `NULL`. -/
def ferror (f : File) : Bool := f.ioError

/-! ## `License.c` -/

/-- Function `hexNibbleToByte`; the result is converted to `md5_byte_t`. -/
def hexNibbleToByte (hexNibble : Nat) : Nat :=
  if 48 ≤ hexNibble ∧ hexNibble ≤ 57 then hexNibble - 48
  else (hexNibble + 256 - 65 + 10) % 256

/-- The byte `(hexNibbleToByte(data[0]) << 4) | hexNibbleToByte(data[1])` as it is
stored in an `md5_byte_t`. -/
def pairByte (c0 c1 : Nat) : Nat :=
  ((hexNibbleToByte c0 <<< 4) ||| hexNibbleToByte c1) % 256

/-- Loop `while (*p == ' ') p++;` on a C string, from offset `p`. The first
argument bounds the number of iterations; the callers pass `strlen s + 1`, which
the loop cannot use up, since it stops at the NUL at the latest. -/
def skipSpaces (s : List Nat) : Nat → Nat → Option Nat
  | 0, _ => none
  | fuel + 1, p =>
    match charAt s p with
    | none => none
    | some c => if c = 32 then skipSpaces s fuel (p + 1) else some p

/-- Function `findExpiresAfterDate`: `some none` is a `NULL` result,
`some (some p)` a pointer to offset `p` of `licenseKey`. The key is skipped with
`sizeof(EXPIRES_AFTER_KEY)`, the size of the literal with its NUL. -/
def findExpiresAfterDate (licenseKey : List Nat) : Option (Option Nat) :=
  match strstr licenseKey EXPIRES_AFTER_KEY with
  | none => some none
  | some at_ =>
    (skipSpaces licenseKey (licenseKey.length + 1)
      (at_ + (EXPIRES_AFTER_KEY.length + 1))).map some

/-- The buffer `checkDateChars` of `compareDates` after
`snprintf(checkDateChars, 20, "%d-%02d-%02d", ...)`. -/
def checkDateChars (checkDate : Tm) : List Nat :=
  (printf_d (toInt32 (checkDate.tm_year + 1900)) ++ [45]
    ++ printf_02d (toInt32 (checkDate.tm_mon + 1)) ++ [45]
    ++ printf_02d checkDate.tm_mday).take (20 - 1)

/-- Function `compareDates`: 0 if expired, 1 otherwise; `none` is a `NULL`
argument. -/
def compareDates (expiresAfterChars : Option (List Nat)) (checkDate : Tm) : Int :=
  match expiresAfterChars with
  | none => 1
  | some s => if strcmp s (checkDateChars checkDate) ≥ 0 then 1 else 0

/-- Function `passenger_enterprise_license_init`: the new value of the global
`licenseKey`. -/
def passenger_enterprise_license_init : Option (List Nat) := none

/-- What a call reads from its environment: the inputs of `open_license_file`,
and the contents of the freed `licenseKey` block in the expired branch. -/
structure World where
  /-- Result of `getenv("PASSENGER_ENTERPRISE_LICENSE_DATA")`. -/
  licenseData : Option (List Nat)
  /-- Whether `mkstemp` succeeds. -/
  mkstempOk : Bool
  /-- Whether `fdopen` succeeds. -/
  fdopenOk : Bool
  /-- Whether reading the temporary file back ends in a read error. -/
  tmpIoError : Bool
  /-- Result of `fopen("/etc/passenger-enterprise-license", "r")`. -/
  etcFile : Option File
  /-- The bytes that `strlen(expiresAfter)` finds after `free(licenseKey)`. -/
  freedAtStrlen : List Nat
  /-- The bytes that `snprintf` finds at `expiresAfter` for `%s`, after
  `free(licenseKey)` and the `malloc` of the message, which may reuse the
  block. -/
  freedAtSnprintf : List Nat

/-- Function `open_license_file`; `none` is a `NULL` result. -/
def open_license_file (w : World) : Option File :=
  match w.licenseData.map cstr with
  | some (c :: cs) =>
    if !w.mkstempOk then none
    else if !w.fdopenOk then none
    else
      some { data := (c :: cs) ++ (if (c :: cs).getLast? ≠ some 10 then [10] else []),
             ioError := w.tmpIoError }
  | _ => w.etcFile

/-- The message of an already checked license. -/
def msgAlreadyChecked : List Nat :=
  bytes "Phusion Passenger Enterprise license key already checked."

/-- The message of a license file that cannot be opened. -/
def msgCouldNotOpen (h : LicenseH) : List Nat :=
  bytes "Could not open the Phusion Passenger Enterprise license file. Please check whether it's installed correctly and whether it's world-readable.\n"
    ++ h.APPEAL_MESSAGE

/-- The message of a read error. -/
def msgIoError (h : LicenseH) : List Nat :=
  bytes "An I/O error occurred while reading the Phusion Passenger Enterprise license file.\n"
    ++ h.APPEAL_MESSAGE

/-- The message of a corrupted license file. -/
def msgCorrupted (h : LicenseH) : List Nat :=
  bytes "The Phusion Passenger Enterprise license file appears to be corrupted. Please reinstall it.\n"
    ++ h.APPEAL_MESSAGE

/-- The message of a digest mismatch. -/
def msgInvalid (h : LicenseH) : List Nat :=
  bytes "The Phusion Passenger Enterprise license file is invalid.\n" ++ h.APPEAL_MESSAGE

/-- The message of an expired license for an expiration string that is read
intact: the buffer of `messageLen` bytes after
`snprintf(message, messageLen, "... expired since %s.\n%s", ...)`. -/
def msgExpired (h : LicenseH) (expiresAfter : List Nat) : List Nat :=
  let messageLen :=
    ((bytes "The Phusion Passenger Enterprise license file is invalid: expired since .\n").length + 1)
      + expiresAfter.length + (h.EXPIRED_APPEAL_MESSAGE.length + 1) + 1
  (bytes "The Phusion Passenger Enterprise license file is invalid: expired since "
    ++ expiresAfter ++ bytes ".\n" ++ h.EXPIRED_APPEAL_MESSAGE).take (messageLen - 1)

/-- The message that the expired branch builds (lines 236 to 240):
`free(licenseKey)` comes first, then `strlen(expiresAfter)` and
`snprintf(..., expiresAfter, ...)` read through the pointer into the freed
block. `atStrlen` is the C string that `strlen` finds and that sizes the buffer
of `messageLen` bytes, `atSnprintf` the C string that `snprintf` copies for
`%s`; the output is cut to `messageLen - 1` characters. -/
def msgExpiredAfterFree (h : LicenseH) (atStrlen atSnprintf : List Nat) : List Nat :=
  let messageLen :=
    ((bytes "The Phusion Passenger Enterprise license file is invalid: expired since .\n").length + 1)
      + atStrlen.length + (h.EXPIRED_APPEAL_MESSAGE.length + 1) + 1
  (bytes "The Phusion Passenger Enterprise license file is invalid: expired since "
    ++ atSnprintf ++ bytes ".\n" ++ h.EXPIRED_APPEAL_MESSAGE).take (messageLen - 1)

/-- The reading loop of `passenger_enterprise_license_check`: `lines` is the
array `lines[0..count)`. The result is the message of a `goto finish`, or the
lines at the `break`. The first argument bounds the number of iterations: every
iteration that continues increments `count`, and none continues from
`count >= MAX_LICENSE_LINES`, so `MAX_LICENSE_LINES + 1` iterations suffice. -/
def readLoop (h : LicenseH) : Nat → File → List (List Nat) →
    Option (Except (List Nat) (List (List Nat)))
  | 0, _, _ => none
  | fuel + 1, f, lines =>
    match fgets 1024 f with
    | none =>
      if ferror f then some (.error (msgIoError h)) else some (.ok lines)
    | some (line, f1) =>
      let len := (cstr line).length
      if len = 0 ∨ (cstr line).getD (len - 1) 0 ≠ 10 ∨ lines.length ≥ MAX_LICENSE_LINES then
        some (.error (msgCorrupted h))
      else readLoop h fuel f1 (lines ++ [cstr line])

/-- The loop of `passenger_enterprise_license_check` that reads the last line as
binary digest data: `data` and `readDigestCursor` are offsets into `line` and
`readDigest`. The first argument bounds the number of iterations: every
iteration increments `readDigestCursor` and none starts from `MD5_SIZE`, so
`MD5_SIZE + 1` iterations suffice. -/
def decodeLoop (line : List Nat) : Nat → Nat → List Nat → Nat → Option (List Nat)
  | 0, _, _, _ => none
  | fuel + 1, data, readDigest, readDigestCursor =>
    if data < line.length ∧ line.getD data 0 ≠ 10 ∧ readDigestCursor < MD5_SIZE then
      match skipSpaces line (line.length + 1) data with
      | none => none
      | some data1 =>
        match charAt line data1, charAt line (data1 + 1) with
        | some c0, some c1 =>
          decodeLoop line fuel (data1 + 2)
            (readDigest.set readDigestCursor (pairByte c0 c1)) (readDigestCursor + 1)
        | _, _ => none
    else some readDigest

/-- The array `readDigest` before it is written: whatever the stack holds. -/
def uninitialized (stack : Nat → Nat) : List Nat :=
  (List.range MD5_SIZE).map (fun i => stack i % 256)

/-- Result of a call of `passenger_enterprise_license_check`. -/
structure Outcome where
  /-- The returned message; `none` is `NULL`. -/
  message : Option (List Nat)
  /-- The global `licenseKey` after the call; `none` is `NULL`. -/
  licenseKey : Option (List Nat)
  /-- Whether the call reached `open_license_file`. -/
  opened : Bool
deriving DecidableEq, Repr

/-- Function `passenger_enterprise_license_check`, from the global `licenseKey`,
the environment `w`, the local time `dateTimeNow` and the stack contents under
`readDigest`. In the expired branch `licenseKey` is freed and set to `NULL`
before the message is built, so the message comes from what the freed block
holds then (`w.freedAtStrlen`, `w.freedAtSnprintf`). -/
def passenger_enterprise_license_check (h : LicenseH) (md5 : MD5) (w : World)
    (dateTimeNow : Tm) (stack : Nat → Nat) (licenseKey : Option (List Nat)) :
    Option Outcome :=
  match licenseKey with
  | some key => some ⟨some msgAlreadyChecked, some key, false⟩
  | none =>
    match open_license_file w with
    | none => some ⟨some (msgCouldNotOpen h), none, true⟩
    | some f =>
      match readLoop h (MAX_LICENSE_LINES + 1) f [] with
      | none => none
      | some (.error message) => some ⟨some message, none, true⟩
      | some (.ok lines) =>
        let count := lines.length
        if count = 0 then some ⟨some (msgCorrupted h), none, true⟩
        else
          let body := (lines.take (count - 1)).flatten
          let digest := md5.digest (body ++ LICENSE_SECRET)
          match decodeLoop (lines.getD (count - 1) []) (MD5_SIZE + 1) 0
              (uninitialized stack) 0 with
          | none => none
          | some readDigest =>
            if memcmp digest readDigest MD5_SIZE ≠ 0 then
              some ⟨some (msgInvalid h), none, true⟩
            else
              match findExpiresAfterDate body with
              | none => none
              | some expiresAfter =>
                if compareDates (expiresAfter.map (fun p => body.drop p)) dateTimeNow = 0 then
                  some ⟨some (msgExpiredAfterFree h (cstr w.freedAtStrlen)
                    (cstr w.freedAtSnprintf)), none, true⟩
                else some ⟨none, some body, true⟩

/-- Function `passenger_enterprise_on_cloud_license`. -/
def passenger_enterprise_on_cloud_license (licenseKey : List Nat) : Bool :=
  (strstr licenseKey (bytes "Cloud license")).isSome

/-- Function `passenger_enterprise_on_heroku_license`. -/
def passenger_enterprise_on_heroku_license (licenseKey : List Nat) : Bool :=
  (strstr licenseKey (bytes "Heroku license")).isSome

/-- Function `passenger_enterprise_should_track_usage`. -/
def passenger_enterprise_should_track_usage (licenseKey : List Nat) : Bool :=
  passenger_enterprise_on_cloud_license licenseKey
    || passenger_enterprise_on_heroku_license licenseKey

/-! ## Vocabulary of the specification -/

/-- Upper-case hexadecimal digit of a value below 16. -/
def hexDigit (v : Nat) : Nat := if v < 10 then 48 + v else 55 + v

/-- Upper-case hexadecimal text of a byte sequence: two digits per byte, high
nibble first. -/
def uppercaseHex (d : List Nat) : List Nat :=
  d.flatMap (fun b => [hexDigit (b / 16), hexDigit (b % 16)])

/-- A character of the alphabet `0-9A-F`. -/
def isUpperHex (c : Nat) : Bool := (48 ≤ c && c ≤ 57) || (65 ≤ c && c ≤ 70)

/-- A digest line body: each group is a number of spaces followed by a pair of
characters. -/
def spaced (groups : List (Nat × Nat × Nat)) : List Nat :=
  groups.flatMap (fun g => List.replicate g.1 32 ++ [g.2.1, g.2.2])

/-- A physical line that fits the 1024-byte line buffer: it ends in its newline,
holds no other newline and has at most 1023 bytes. -/
def TerminatedLine (l : List Nat) : Prop :=
  l.getLast? = some 10 ∧ 10 ∉ l.dropLast ∧ l.length ≤ 1023

/-- A well-formed line of a license body: a terminated line without NUL bytes. -/
def WellFormedLine (l : List Nat) : Prop := TerminatedLine l ∧ 0 ∉ l

instance (l : List Nat) : Decidable (TerminatedLine l) := by
  unfold TerminatedLine; infer_instance

instance (l : List Nat) : Decidable (WellFormedLine l) := by
  unfold WellFormedLine; infer_instance

/-- The license source whose body is `body` and whose last line is the correct
digest in upper-case hexadecimal. -/
def licenseSource (md5 : MD5) (body : List Nat) : List Nat :=
  body ++ uppercaseHex (md5.digest (body ++ LICENSE_SECRET)) ++ [10]

/-- The text `YYYY-MM-DD` of a date with a four-digit year. -/
def isoDate (y m d : Nat) : List Nat :=
  [48 + y / 1000 % 10, 48 + y / 100 % 10, 48 + y / 10 % 10, 48 + y % 10, 45,
   48 + m / 10 % 10, 48 + m % 10, 45, 48 + d / 10 % 10, 48 + d % 10]

/-- Chronological order of two dates given as year, month, day: the first is on
or before the second. -/
def dateLE (y1 m1 d1 y2 m2 d2 : Int) : Prop :=
  y1 < y2 ∨ (y1 = y2 ∧ (m1 < m2 ∨ (m1 = m2 ∧ d1 ≤ d2)))

instance (y1 m1 d1 y2 m2 d2 : Int) : Decidable (dateLE y1 m1 d1 y2 m2 d2) := by
  unfold dateLE; infer_instance

/-- A digest function for concrete runs of the model: a position-dependent
checksum of the message. -/
def sampleMD5 : MD5 where
  digest m := (List.range 16).map (fun i => (m.sum + i * 17 + m.length) % 256)
  size_eq := by intro m; simp [MD5_SIZE]
  byte_lt := by
    intro m b hb
    simp only [List.mem_map, List.mem_range] at hb
    obtain ⟨a, _, rfl⟩ := hb
    exact Nat.mod_lt _ (by decide)

/-- Support suffixes for concrete runs of the model. -/
def sampleHeader : LicenseH :=
  ⟨bytes "Please contact support.", bytes "Please renew your license."⟩

/-- An environment without the variable, where the license file holds `src`; a
freed block reads back as the empty string. -/
def fileWorld (src : List Nat) : World :=
  ⟨none, true, true, false, some ⟨src, false⟩, [], []⟩

/-- An environment without the variable, where the license file holds `src` and
the freed `licenseKey` block reads back as `atStrlen`, then as `atSnprintf`. -/
def freedWorld (src atStrlen atSnprintf : List Nat) : World :=
  ⟨none, true, true, false, some ⟨src, false⟩, atStrlen, atSnprintf⟩

/-- The digest line of the body `hello` under `sampleMD5`, as 16 pairs of digits
without spaces. -/
def sampleGroups : List (Nat × Nat × Nat) :=
  (sampleMD5.digest (bytes "hello\n" ++ LICENSE_SECRET)).map
    (fun b => (0, hexDigit (b / 16), hexDigit (b % 16)))

/-- Lower-case hexadecimal digit of a value below 16. -/
def lowerHexDigit (v : Nat) : Nat := if v < 10 then 48 + v else 87 + v

/-- The digest decoding loop of `passenger_enterprise_license_check` with its
accesses checked and recorded. The result is `none` when a read of `line` falls
outside `line[0..strlen(line)]` or a write falls outside `readDigest`; otherwise
it is the final `readDigest`, the offsets of `line` that were read and the
offsets of `readDigest` that were written, in order. The space-skipping loop
that stops at `data1` has read the offsets from `data` to `data1`. -/
def decodeLoopChecked (line : List Nat) :
    Nat → Nat → List Nat → Nat → Option (List Nat × List Nat × List Nat)
  | 0, _, _, _ => none
  | fuel + 1, data, readDigest, readDigestCursor =>
    if data < line.length then
      if line.getD data 0 ≠ 10 ∧ readDigestCursor < MD5_SIZE then
        match skipSpaces line (line.length + 1) data with
        | none => none
        | some data1 =>
          match charAt line data1, charAt line (data1 + 1) with
          | some c0, some c1 =>
            if readDigestCursor < readDigest.length then
              match decodeLoopChecked line fuel (data1 + 2)
                  (readDigest.set readDigestCursor (pairByte c0 c1)) (readDigestCursor + 1) with
              | none => none
              | some (r, reads, writes) =>
                some (r, data :: (List.range' data (data1 + 1 - data) ++ [data1, data1 + 1])
                  ++ reads, readDigestCursor :: writes)
            else none
          | _, _ => none
      else some (readDigest, [data], [])
    else some (readDigest, [], [])

/-! ## The digest-line decoder -/

theorem hexNibbleToByte_hexDigit : ∀ v, v < 16 → hexNibbleToByte (hexDigit v) = v := by decide

set_option maxRecDepth 100000 in
theorem pairByte_hexDigit : ∀ b, b < 256 → pairByte (hexDigit (b / 16)) (hexDigit (b % 16)) = b := by
  decide

theorem charAt_append_right (pre rest : List Nat) (i : Nat) :
    charAt (pre ++ rest) (pre.length + i) = charAt rest i := by
  unfold charAt
  simp only [List.length_append, Nat.add_le_add_iff_left]
  by_cases h : i ≤ rest.length
  · simp only [h, if_true, List.getD_eq_getElem?_getD]
    rw [List.getElem?_append_right (by omega)]
    simp
  · simp [h]

theorem charAt_at_cons (pre rest : List Nat) (c : Nat) :
    charAt (pre ++ c :: rest) pre.length = some c := by
  have := charAt_append_right pre (c :: rest) 0
  simp only [Nat.add_zero] at this
  rw [this]; simp [charAt]

theorem skipSpaces_replicate (pre rest : List Nat) (c : Nat) (hc : c ≠ 32) (k fuel : Nat)
    (hfuel : k < fuel) :
    skipSpaces (pre ++ (List.replicate k 32 ++ c :: rest)) fuel pre.length
      = some (pre.length + k) := by
  induction k generalizing pre fuel with
  | zero =>
    obtain ⟨fuel, rfl⟩ : ∃ n, fuel = n + 1 := ⟨fuel - 1, by omega⟩
    simp only [List.replicate_zero, List.nil_append, skipSpaces, charAt_at_cons, if_neg hc,
      Nat.add_zero]
  | succ k ih =>
    obtain ⟨fuel, rfl⟩ : ∃ n, fuel = n + 1 := ⟨fuel - 1, by omega⟩
    have h1 := ih (pre ++ [32]) fuel (by omega)
    simp only [List.append_assoc, List.singleton_append, List.length_append,
      List.length_singleton] at h1
    simp only [List.replicate_succ, List.cons_append, skipSpaces, charAt_at_cons, if_true]
    rw [h1]; congr 1; omega

theorem getD_at_cons (pre rest : List Nat) (c : Nat) :
    (pre ++ c :: rest).getD pre.length 0 = c := by
  rw [List.getD_eq_getElem?_getD, List.getElem?_append_right (Nat.le_refl _)]
  simp

theorem set_take_drop (rd m : List Nat) (cur n v : Nat) (h : cur < rd.length) :
    (rd.set cur v).take (cur + 1) ++ (m ++ (rd.set cur v).drop (cur + 1 + n))
      = rd.take cur ++ (v :: m ++ rd.drop (cur + (n + 1))) := by
  rw [List.drop_set_of_lt _ _ (by omega), List.take_succ, List.set_take,
    List.set_eq_of_length_le (by simp), List.getElem?_set_self h]
  simp [Nat.add_assoc, Nat.add_comm 1 n]

theorem decodeLoop_stop (line : List Nat) (fuel data cur : Nat) (rd : List Nat)
    (h : ¬ (data < line.length ∧ line.getD data 0 ≠ 10 ∧ cur < MD5_SIZE)) :
    decodeLoop line (fuel + 1) data rd cur = some rd := by
  simp only [decodeLoop, if_neg h]

theorem decodeLoop_groups (groups : List (Nat × Nat × Nat)) :
    ∀ (pre rest rd : List Nat) (cur fuel : Nat),
      (∀ g ∈ groups, g.2.1 ≠ 32 ∧ g.2.1 ≠ 10) →
      groups.length < fuel →
      cur + groups.length ≤ MD5_SIZE →
      rd.length = MD5_SIZE →
      (rest = [] ∨ rest.head? = some 10 ∨ cur + groups.length = MD5_SIZE) →
      decodeLoop (pre ++ (spaced groups ++ rest)) fuel pre.length rd cur
        = some (rd.take cur ++ (groups.map (fun g => pairByte g.2.1 g.2.2)
            ++ rd.drop (cur + groups.length))) := by
  induction groups with
  | nil =>
    intro pre rest rd cur fuel _ hfuel hcur hrd hstop
    obtain ⟨fuel, rfl⟩ : ∃ n, fuel = n + 1 := ⟨fuel - 1, by simp at hfuel; omega⟩
    rw [decodeLoop_stop]
    · simp
    · simp only [spaced, List.flatMap_nil, List.nil_append, List.length_nil, Nat.add_zero] at hstop ⊢
      rcases hstop with h | h | h
      · subst h; simp
      · cases rest with
        | nil => simp
        | cons c rest =>
          simp only [List.head?_cons, Option.some.injEq] at h
          subst h
          rw [getD_at_cons]; simp
      · omega
  | cons g gs ih =>
    intro pre rest rd cur fuel hg hfuel hcur hrd hstop
    obtain ⟨k, a, b⟩ := g
    obtain ⟨fuel, rfl⟩ : ∃ n, fuel = n + 1 := ⟨fuel - 1, by simp at hfuel; omega⟩
    have ha := hg (k, a, b) (List.mem_cons_self _ _)
    simp only at ha
    simp only [List.length_cons] at hfuel hcur hstop
    have hline : pre ++ (spaced ((k, a, b) :: gs) ++ rest)
        = pre ++ (List.replicate k 32 ++ a :: (b :: (spaced gs ++ rest))) := by
      simp [spaced]
    have hline2 : pre ++ (spaced ((k, a, b) :: gs) ++ rest)
        = (pre ++ List.replicate k 32) ++ a :: (b :: (spaced gs ++ rest)) := by
      simp [spaced]
    have hline3 : pre ++ (spaced ((k, a, b) :: gs) ++ rest)
        = (pre ++ List.replicate k 32 ++ [a]) ++ b :: (spaced gs ++ rest) := by
      simp [spaced]
    have hline4 : pre ++ (spaced ((k, a, b) :: gs) ++ rest)
        = (pre ++ List.replicate k 32 ++ [a, b]) ++ (spaced gs ++ rest) := by
      simp [spaced]
    have hcond : pre.length < (pre ++ (spaced ((k, a, b) :: gs) ++ rest)).length
        ∧ (pre ++ (spaced ((k, a, b) :: gs) ++ rest)).getD pre.length 0 ≠ 10
        ∧ cur < MD5_SIZE := by
      refine ⟨?_, ?_, by omega⟩
      · rw [hline]; simp
      · cases k with
        | zero =>
          rw [hline]
          simp only [List.replicate_zero, List.nil_append]
          rw [getD_at_cons]; exact ha.2
        | succ k =>
          rw [hline]
          simp only [List.replicate_succ, List.cons_append]
          rw [getD_at_cons]; decide
    have hskip : skipSpaces (pre ++ (spaced ((k, a, b) :: gs) ++ rest))
        ((pre ++ (spaced ((k, a, b) :: gs) ++ rest)).length + 1) pre.length
        = some (pre.length + k) := by
      rw [hline]
      apply skipSpaces_replicate _ _ _ ha.1
      simp; omega
    have hc0 : charAt (pre ++ (spaced ((k, a, b) :: gs) ++ rest)) (pre.length + k) = some a := by
      rw [hline2]
      have := charAt_at_cons (pre ++ List.replicate k 32) (b :: (spaced gs ++ rest)) a
      simpa using this
    have hc1 : charAt (pre ++ (spaced ((k, a, b) :: gs) ++ rest)) (pre.length + k + 1) = some b := by
      rw [hline3]
      have := charAt_at_cons (pre ++ List.replicate k 32 ++ [a]) (spaced gs ++ rest) b
      simpa using this
    rw [decodeLoop, if_pos hcond, hskip]
    simp only [hc0, hc1]
    have hlen : (pre ++ List.replicate k 32 ++ [a, b]).length = pre.length + k + 2 := by
      simp; omega
    have hgs : ∀ g ∈ gs, g.2.1 ≠ 32 ∧ g.2.1 ≠ 10 := fun g hmem => hg g (List.mem_cons_of_mem _ hmem)
    have hrd2 : (rd.set cur (pairByte a b)).length = MD5_SIZE := by simpa using hrd
    have hstop2 : rest = [] ∨ rest.head? = some 10 ∨ cur + 1 + gs.length = MD5_SIZE := by
      rcases hstop with h | h | h
      · exact Or.inl h
      · exact Or.inr (Or.inl h)
      · exact Or.inr (Or.inr (by omega))
    have := ih (pre ++ List.replicate k 32 ++ [a, b]) rest
      (rd.set cur (pairByte a b)) (cur + 1) fuel hgs (by omega) (by omega) hrd2 hstop2
    rw [hlen, ← hline4] at this
    rw [this]
    simp only [List.map_cons, Option.some.injEq]
    exact set_take_drop rd _ cur gs.length _ (by omega)

/-! ## The reading loop -/

theorem terminated_split {l : List Nat} (h : TerminatedLine l) :
    ∃ t, l = t ++ [10] ∧ 10 ∉ t ∧ t.length + 1 ≤ 1023 := by
  obtain ⟨h1, h2, h3⟩ := h
  have := List.dropLast_append_getLast? 10 (Option.mem_def.mpr h1)
  refine ⟨l.dropLast, this.symm, h2, ?_⟩
  rw [← this] at h3
  simpa using h3

theorem readChunk_line (t rest : List Nat) (ht : 10 ∉ t) :
    ∀ n, t.length + 1 ≤ n → readChunk n (t ++ [10] ++ rest) = (t ++ [10], rest) := by
  induction t with
  | nil =>
    intro n hn
    obtain ⟨n, rfl⟩ : ∃ k, n = k + 1 := ⟨n - 1, by simp at hn; omega⟩
    simp [readChunk]
  | cons c t ih =>
    intro n hn
    obtain ⟨n, rfl⟩ : ∃ k, n = k + 1 := ⟨n - 1, by simp at hn; omega⟩
    have hc : c ≠ 10 := fun h => ht (by simp [h])
    have ht2 : 10 ∉ t := fun h => ht (by simp [h])
    have := ih ht2 n (by simp at hn; omega)
    simp only [List.cons_append, readChunk, if_neg hc]
    simp only [List.append_assoc, List.singleton_append] at this
    simp [this]

theorem fgets_line {l : List Nat} (h : TerminatedLine l) (rest : List Nat) (io : Bool) :
    fgets 1024 ⟨l ++ rest, io⟩ = some (l, ⟨rest, io⟩) := by
  obtain ⟨t, rfl, ht, hlen⟩ := terminated_split h
  have := readChunk_line t rest ht 1023 hlen
  simp only [List.append_assoc, List.singleton_append] at this
  simp [fgets, this]

theorem fgets_nil : fgets 1024 ⟨[], false⟩ = none := by
  simp [fgets, readChunk]

theorem cstr_of_no_nul {l : List Nat} (h : 0 ∉ l) : cstr l = l := by
  unfold cstr
  rw [List.takeWhile_eq_self_iff]
  intro x hx
  have : x ≠ 0 := fun h0 => h (h0 ▸ hx)
  simpa using this

theorem cstr_sublist (l : List Nat) : ∀ x ∈ cstr l, x ∈ l := by
  intro x hx
  exact (List.takeWhile_sublist _).subset hx

theorem getD_last_iff (s : List Nat) :
    (¬ (s.length = 0 ∨ s.getD (s.length - 1) 0 ≠ 10)) ↔ s.getLast? = some 10 := by
  rw [List.getLast?_eq_getElem?, List.getD_eq_getElem?_getD]
  cases s with
  | nil => simp
  | cons a s =>
    simp only [List.length_cons, Nat.add_sub_cancel, Nat.succ_ne_zero, false_or, not_not]
    cases hget : (a :: s)[s.length]? with
    | none =>
      rw [List.getElem?_eq_none_iff] at hget
      simp at hget
    | some x => simp

theorem readLoop_lines (h : LicenseH) (ls : List (List Nat)) :
    ∀ (acc : List (List Nat)) (fuel : Nat),
      (∀ l ∈ ls, WellFormedLine l) → acc.length + ls.length ≤ MAX_LICENSE_LINES →
      ls.length < fuel →
      readLoop h fuel ⟨ls.flatten, false⟩ acc = some (.ok (acc ++ ls)) := by
  induction ls with
  | nil =>
    intro acc fuel _ _ hfuel
    obtain ⟨fuel, rfl⟩ : ∃ k, fuel = k + 1 := ⟨fuel - 1, by simp at hfuel; omega⟩
    simp [readLoop, fgets_nil, ferror]
  | cons l ls ih =>
    intro acc fuel hwf hlen hfuel
    obtain ⟨fuel, rfl⟩ : ∃ k, fuel = k + 1 := ⟨fuel - 1, by simp at hfuel; omega⟩
    have hl := hwf l (List.mem_cons_self _ _)
    have hgood := (getD_last_iff l).mpr hl.1.1
    simp only [List.length_cons] at hlen hfuel
    have hcount : ¬ acc.length ≥ MAX_LICENSE_LINES := by omega
    have hcond : ¬ (l.length = 0 ∨ l.getD (l.length - 1) 0 ≠ 10
        ∨ acc.length ≥ MAX_LICENSE_LINES) := by
      intro hc
      rcases hc with hc | hc | hc
      · exact hgood (Or.inl hc)
      · exact hgood (Or.inr hc)
      · exact hcount hc
    rw [List.flatten_cons, readLoop, fgets_line hl.1]
    simp only [cstr_of_no_nul hl.2, if_neg hcond]
    rw [ih (acc ++ [l]) fuel (fun x hx => hwf x (List.mem_cons_of_mem _ hx))
      (by simp; omega) (by omega)]
    simp


theorem readChunk_append (n : Nat) (data : List Nat) :
    (readChunk n data).1 ++ (readChunk n data).2 = data := by
  induction n generalizing data with
  | zero => simp [readChunk]
  | succ n ih =>
    cases data with
    | nil => simp [readChunk]
    | cons c rest =>
      by_cases hc : c = 10
      · simp [readChunk, hc]
      · simp [readChunk, hc, ih]

theorem readChunk_ne_nil (n : Nat) (c : Nat) (rest : List Nat) :
    (readChunk (n + 1) (c :: rest)).1 ≠ [] := by
  by_cases hc : c = 10
  · simp [readChunk, hc]
  · simp [readChunk, hc]

theorem readChunk_newline (n : Nat) (data : List Nat) :
    10 ∈ (readChunk n data).1 → (readChunk n data).1.getLast? = some 10 := by
  induction n generalizing data with
  | zero => simp [readChunk]
  | succ n ih =>
    cases data with
    | nil => simp [readChunk]
    | cons c rest =>
      by_cases hc : c = 10
      · simp [readChunk, hc]
      · simp only [readChunk, if_neg hc, List.mem_cons]
        intro hmem
        rcases hmem with hmem | hmem
        · exact absurd hmem.symm hc
        · have h1 := ih rest hmem
          cases hr : (readChunk n rest).1 with
          | nil => rw [hr] at hmem; simp at hmem
          | cons a t =>
            rw [hr] at h1
            rw [List.getLast?_cons_cons]; exact h1

/-- What a successful `fgets` call returns: a non-empty chunk of the unread bytes,
which holds a newline only as its last byte. -/
theorem fgets_some {f : File} {line : List Nat} {f1 : File}
    (h : fgets 1024 f = some (line, f1)) :
    f.data = line ++ f1.data ∧ f1.ioError = f.ioError ∧ f.data ≠ [] ∧
      (10 ∈ line → line.getLast? = some 10) := by
  have happ := readChunk_append 1023 f.data
  have hnl := readChunk_newline 1023 f.data
  have hne : f.data ≠ [] := by
    intro hnil
    rw [fgets, hnil] at h
    simp [readChunk] at h
  unfold fgets at h
  simp only at h
  split_ifs at h with h1 h2 h3
  all_goals
    simp only [Option.some.injEq, Prod.mk.injEq] at h
    obtain ⟨rfl, rfl⟩ := h
    exact ⟨happ.symm, rfl, hne, hnl⟩

theorem cstr_last_mem {line : List Nat}
    (h : ¬ ((cstr line).length = 0 ∨ (cstr line).getD ((cstr line).length - 1) 0 ≠ 10)) :
    10 ∈ line := by
  have := (getD_last_iff (cstr line)).mp h
  exact cstr_sublist line 10 (List.mem_of_getLast?_eq_some this)

theorem cstr_no_nul (line : List Nat) : 0 ∉ cstr line := by
  intro hmem
  have := List.mem_takeWhile_imp hmem
  simp at this

/-- The reading loop returns, and every line it hands over is a C string that
ends in a newline. -/
theorem readLoop_spec (h : LicenseH) :
    ∀ (fuel : Nat) (f : File) (acc : List (List Nat)),
      MAX_LICENSE_LINES + 1 ≤ fuel + acc.length → acc.length ≤ MAX_LICENSE_LINES →
      (∀ l ∈ acc, l.getLast? = some 10 ∧ 0 ∉ l) →
      ∃ r, readLoop h fuel f acc = some r ∧
        (∀ m, r = .error m → m = msgIoError h ∨ m = msgCorrupted h) ∧
        (∀ ls, r = .ok ls → ∀ l ∈ ls, l.getLast? = some 10 ∧ 0 ∉ l) := by
  intro fuel
  induction fuel with
  | zero =>
    intro f acc hfuel hcount _
    omega
  | succ fuel ih =>
    intro f acc hfuel hcount hacc
    rw [readLoop]
    cases hf : fgets 1024 f with
    | none =>
      simp only
      by_cases he : ferror f = true
      · refine ⟨.error (msgIoError h), by simp [he], ?_, ?_⟩
        · intro m hm; cases hm; exact Or.inl rfl
        · intro ls hls; cases hls
      · refine ⟨.ok acc, by simp [he], ?_, ?_⟩
        · intro m hm; cases hm
        · intro ls hls; cases hls; exact hacc
    | some p =>
      obtain ⟨line, f1⟩ := p
      simp only
      by_cases hc : (cstr line).length = 0 ∨ (cstr line).getD ((cstr line).length - 1) 0 ≠ 10
          ∨ acc.length ≥ MAX_LICENSE_LINES
      · refine ⟨.error (msgCorrupted h), by rw [if_pos hc], ?_, ?_⟩
        · intro m hm; cases hm; exact Or.inr rfl
        · intro ls hls; cases hls
      · rw [if_neg hc]
        have hlast : (cstr line).getLast? = some 10 :=
          (getD_last_iff _).mp (fun hh => hc (by rcases hh with hh | hh
                                                 · exact Or.inl hh
                                                 · exact Or.inr (Or.inl hh)))
        have hlt : acc.length < MAX_LICENSE_LINES := by
          apply Nat.lt_of_not_ge
          exact fun hh => hc (Or.inr (Or.inr hh))
        apply ih f1 (acc ++ [cstr line]) (by simp; omega) (by simp; omega)
        intro l hl
        rcases List.mem_append.mp hl with hl | hl
        · exact hacc l hl
        · simp only [List.mem_singleton] at hl
          subst hl
          exact ⟨hlast, cstr_no_nul line⟩

theorem readLoop_too_many (h : LicenseH) (io : Bool) (ls : List (List Nat)) :
    ∀ (acc : List (List Nat)) (fuel : Nat),
      (∀ l ∈ ls, TerminatedLine l) → MAX_LICENSE_LINES < acc.length + ls.length →
      acc.length ≤ MAX_LICENSE_LINES → MAX_LICENSE_LINES + 1 ≤ fuel + acc.length →
      readLoop h fuel ⟨ls.flatten, io⟩ acc = some (.error (msgCorrupted h)) := by
  induction ls with
  | nil => intro acc fuel _ h1 h2 _; simp at h1; omega
  | cons l ls ih =>
    intro acc fuel hterm hmany hcount hfuel
    obtain ⟨fuel, rfl⟩ : ∃ k, fuel = k + 1 := ⟨fuel - 1, by omega⟩
    rw [List.flatten_cons, readLoop, fgets_line (hterm l (List.mem_cons_self _ _))]
    simp only
    by_cases hc : (cstr l).length = 0 ∨ (cstr l).getD ((cstr l).length - 1) 0 ≠ 10
        ∨ acc.length ≥ MAX_LICENSE_LINES
    · rw [if_pos hc]
    · rw [if_neg hc]
      have hlt : acc.length < MAX_LICENSE_LINES := by
        apply Nat.lt_of_not_ge
        exact fun hh => hc (Or.inr (Or.inr hh))
      simp only [List.length_cons] at hmany
      exact ih (acc ++ [cstr l]) fuel (fun x hx => hterm x (List.mem_cons_of_mem _ hx))
        (by simp; omega) (by simp; omega) (by simp; omega)

theorem readLoop_unterminated (h : LicenseH) :
    ∀ (fuel : Nat) (f : File) (acc : List (List Nat)),
      f.ioError = false → f.data ≠ [] → f.data.getLast? ≠ some 10 →
      MAX_LICENSE_LINES + 1 ≤ fuel + acc.length → acc.length ≤ MAX_LICENSE_LINES →
      readLoop h fuel f acc = some (.error (msgCorrupted h)) := by
  intro fuel
  induction fuel with
  | zero => intro f acc _ _ _ hfuel hcount; omega
  | succ fuel ih =>
    intro f acc hio hne hlast hfuel hcount
    rw [readLoop]
    cases hf : fgets 1024 f with
    | none =>
      exfalso
      obtain ⟨c, rest, hd⟩ := List.exists_cons_of_ne_nil hne
      have hne2 := readChunk_ne_nil 1022 c rest
      unfold fgets at hf
      rw [hio, hd] at hf
      simp only [Bool.false_eq_true, if_false] at hf
      split_ifs at hf
    | some p =>
      obtain ⟨line, f1⟩ := p
      obtain ⟨hdata, hio1, _, hnl⟩ := fgets_some hf
      simp only
      by_cases hc : (cstr line).length = 0 ∨ (cstr line).getD ((cstr line).length - 1) 0 ≠ 10
          ∨ acc.length ≥ MAX_LICENSE_LINES
      · rw [if_pos hc]
      · rw [if_neg hc]
        have hlt : acc.length < MAX_LICENSE_LINES := by
          apply Nat.lt_of_not_ge
          exact fun hh => hc (Or.inr (Or.inr hh))
        have hline : line.getLast? = some 10 :=
          hnl (cstr_last_mem (fun hh => hc (by rcases hh with hh | hh
                                               · exact Or.inl hh
                                               · exact Or.inr (Or.inl hh))))
        have hne1 : f1.data ≠ [] := by
          intro hnil
          rw [hdata, hnil, List.append_nil] at hlast
          exact hlast hline
        have hlast1 : f1.data.getLast? ≠ some 10 := by
          rw [hdata, List.getLast?_append_of_ne_nil _ hne1] at hlast
          exact hlast
        exact ih f1 (acc ++ [cstr line]) (by rw [hio1, hio]) hne1 hlast1 (by simp; omega)
          (by simp; omega)


/-! ## The loops stay inside their buffers -/

theorem getD_last_of_getLast? {s : List Nat} (h : s.getLast? = some 10) :
    s.getD (s.length - 1) 0 = 10 ∧ 0 < s.length := by
  have := (getD_last_iff s).mpr h
  constructor
  · by_contra hc; exact this (Or.inr hc)
  · by_contra hc; exact this (Or.inl (by omega))

/-- On a string that ends in a newline the space-skipping loop stops inside the
string. -/
theorem skipSpaces_total {s : List Nat} (hs : s.getLast? = some 10) :
    ∀ (fuel p : Nat), p ≤ s.length → s.length < fuel + p →
      ∃ q, skipSpaces s fuel p = some q ∧ p ≤ q ∧ q ≤ s.length ∧
        (p < s.length → q < s.length) ∧ s.getD q 0 ≠ 32 := by
  obtain ⟨hlast, hpos⟩ := getD_last_of_getLast? hs
  intro fuel
  induction fuel with
  | zero => intro p hp hfuel; omega
  | succ fuel ih =>
    intro p hp hfuel
    rw [skipSpaces, charAt, if_pos hp]
    simp only
    by_cases hc : s.getD p 0 = 32
    · rw [if_pos hc]
      have hp1 : p ≠ s.length := by
        intro he
        rw [he, List.getD_eq_getElem?_getD, List.getElem?_eq_none (Nat.le_refl _)] at hc
        simp at hc
      have hp2 : p ≠ s.length - 1 := by
        intro he
        rw [he, hlast] at hc
        omega
      obtain ⟨q, hq, h1, h2, h3, h4⟩ := ih (p + 1) (by omega) (by omega)
      exact ⟨q, hq, by omega, h2, fun _ => h3 (by omega), h4⟩
    · rw [if_neg hc]
      exact ⟨p, rfl, Nat.le_refl _, hp, fun hh => hh, hc⟩

/-- On a line that ends in a newline the digest decoder returns: it never reads
past the terminating NUL and never runs out of iterations. -/
theorem decodeLoop_total {line : List Nat} (hs : line.getLast? = some 10) :
    ∀ (fuel data cur : Nat) (rd : List Nat), MD5_SIZE + 1 ≤ fuel + cur → cur ≤ MD5_SIZE →
      ∃ r, decodeLoop line fuel data rd cur = some r ∧ r.length = rd.length := by
  intro fuel
  induction fuel with
  | zero =>
    intro data cur rd hfuel hcur
    omega
  | succ fuel ih =>
    intro data cur rd hfuel hcur
    rw [decodeLoop]
    by_cases hc : data < line.length ∧ line.getD data 0 ≠ 10 ∧ cur < MD5_SIZE
    · rw [if_pos hc]
      obtain ⟨q, hq, h1, h2, h3, _⟩ := skipSpaces_total hs (line.length + 1) data (by omega) (by omega)
      have hq1 := h3 hc.1
      rw [hq]
      simp only [charAt, if_pos h2, if_pos (show q + 1 ≤ line.length by omega)]
      obtain ⟨r, hr, hlen⟩ := ih (q + 2) (cur + 1) (rd.set cur (pairByte (line.getD q 0)
        (line.getD (q + 1) 0))) (by omega) (by omega)
      exact ⟨r, hr, by simpa using hlen⟩
    · rw [if_neg hc]
      exact ⟨rd, rfl, rfl⟩

/-! ## `strstr` -/

theorem strstr_some {hay needle : List Nat} {i : Nat} (h : strstr hay needle = some i) :
    ∃ rest, hay.drop i = needle ++ rest ∧ i ≤ hay.length := by
  induction hay generalizing i with
  | nil =>
    rw [strstr] at h
    split_ifs at h with hp
    cases h
    rw [List.isPrefixOf_iff_prefix] at hp
    exact ⟨[], by simpa using (List.prefix_nil.mp hp).symm, Nat.le_refl _⟩
  | cons c hay ih =>
    rw [strstr] at h
    split_ifs at h with hp
    · cases h
      rw [List.isPrefixOf_iff_prefix] at hp
      obtain ⟨t, ht⟩ := hp
      exact ⟨t, by simpa using ht.symm, Nat.zero_le _⟩
    · cases hr : strstr hay needle with
      | none => rw [hr] at h; simp at h
      | some j =>
        rw [hr] at h
        simp only [Option.map_some', Option.some.injEq] at h
        subst h
        obtain ⟨rest, h1, h2⟩ := ih hr
        exact ⟨rest, by simpa using h1, by simp; omega⟩

theorem strstr_none {hay needle : List Nat} (h : ¬ needle <:+: hay) :
    strstr hay needle = none := by
  induction hay with
  | nil =>
    rw [strstr]
    split_ifs with hp
    · rw [List.isPrefixOf_iff_prefix] at hp
      exact absurd hp.isInfix h
    · rfl
  | cons c hay ih =>
    rw [strstr]
    split_ifs with hp
    · rw [List.isPrefixOf_iff_prefix] at hp
      exact absurd hp.isInfix h
    · rw [ih (fun hi => h (hi.trans (List.suffix_cons c hay).isInfix))]
      rfl

theorem EXPIRES_AFTER_KEY_eq :
    EXPIRES_AFTER_KEY = [69, 120, 112, 105, 114, 101, 115, 32, 97, 102, 116, 101, 114, 58] := by
  decide

/-- On a body that is empty or ends in a newline, `findExpiresAfterDate` returns
without reading outside the body. -/
theorem findExpiresAfterDate_total {body : List Nat}
    (hb : body = [] ∨ body.getLast? = some 10) :
    ∃ r, findExpiresAfterDate body = some r ∧ ∀ p, r = some p → p ≤ body.length := by
  unfold findExpiresAfterDate
  cases hs : strstr body EXPIRES_AFTER_KEY with
  | none => exact ⟨none, rfl, by intro p hp; cases hp⟩
  | some i =>
    obtain ⟨rest, hdrop, hi⟩ := strstr_some hs
    have hlen : (body.drop i).length = 14 + rest.length := by
      rw [hdrop, EXPIRES_AFTER_KEY_eq]; simp; omega
    rw [List.length_drop] at hlen
    have hlast : body.getLast? = some 10 := by
      rcases hb with hb | hb
      · subst hb; simp at hlen; omega
      · exact hb
    have hrest : rest ≠ [] := by
      intro hnil
      have h1 : (body.drop i).getLast? = some 10 := by
        rw [List.getLast?_drop, if_neg (by omega)]; exact hlast
      rw [hdrop, hnil, EXPIRES_AFTER_KEY_eq] at h1
      simp at h1
    have hrl : 0 < rest.length := List.length_pos.mpr hrest
    have hklen : EXPIRES_AFTER_KEY.length = 14 := by rw [EXPIRES_AFTER_KEY_eq]; rfl
    obtain ⟨q, hq, _, h2, _⟩ := skipSpaces_total hlast (body.length + 1)
      (i + (EXPIRES_AFTER_KEY.length + 1)) (by omega) (by omega)
    refine ⟨some q, by simp [hq], ?_⟩
    intro p hp
    cases hp
    exact h2


/-! ## Digest comparison and the digest line -/

theorem memcmp_eq_zero_iff (n : Nat) :
    ∀ (a b : List Nat), a.length = n → b.length = n → (memcmp a b n = 0 ↔ a = b) := by
  induction n with
  | zero =>
    intro a b ha hb
    rw [List.length_eq_zero] at ha hb
    subst ha hb
    simp [memcmp]
  | succ n ih =>
    intro a b ha hb
    obtain ⟨x, s, rfl⟩ := List.exists_cons_of_length_eq_add_one ha
    obtain ⟨y, t, rfl⟩ := List.exists_cons_of_length_eq_add_one hb
    simp only [List.length_cons, Nat.add_right_cancel_iff] at ha hb
    rw [memcmp]
    by_cases hxy : x = y
    · rw [if_pos hxy, ih s t ha hb]; simp [hxy]
    · rw [if_neg hxy]
      simp only [List.cons.injEq, hxy, false_and, iff_false]
      omega

theorem hexDigit_ne (v : Nat) (hv : v < 16) : hexDigit v ≠ 32 ∧ hexDigit v ≠ 10 := by
  unfold hexDigit; split_ifs <;> omega

theorem uninitialized_length (stack : Nat → Nat) : (uninitialized stack).length = MD5_SIZE := by
  simp [uninitialized]

/-- The groups of a digest line written without spaces. -/
theorem spaced_hex (d : List Nat) :
    spaced (d.map (fun b => (0, hexDigit (b / 16), hexDigit (b % 16)))) = uppercaseHex d := by
  induction d with
  | nil => rfl
  | cons b d ih =>
    simp only [spaced, uppercaseHex, List.map_cons, List.flatMap_cons] at ih ⊢
    rw [ih]; simp

theorem decodeLoop_uppercaseHex (d rest rd : List Nat) (hd : d.length = MD5_SIZE)
    (hb : ∀ b ∈ d, b < 256) (hrd : rd.length = MD5_SIZE) :
    decodeLoop (uppercaseHex d ++ rest) (MD5_SIZE + 1) 0 rd 0 = some d := by
  have hg := decodeLoop_groups (d.map (fun b => (0, hexDigit (b / 16), hexDigit (b % 16))))
    [] rest rd 0 (MD5_SIZE + 1)
    (by
      intro g hgm
      simp only [List.mem_map] at hgm
      obtain ⟨b, hbm, rfl⟩ := hgm
      exact hexDigit_ne _ (by have := hb b hbm; omega))
    (by simp [hd]) (by simp [hd]) hrd (Or.inr (Or.inr (by simp [hd])))
  rw [spaced_hex] at hg
  simp only [List.nil_append, List.length_nil] at hg
  rw [hg]
  simp only [List.take_zero, List.nil_append, List.map_map, List.length_map, Nat.zero_add]
  rw [List.drop_of_length_le (by omega), List.append_nil]
  congr 1
  conv_rhs => rw [← List.map_id d]
  apply List.map_congr_left
  intro b hbm
  exact pairByte_hexDigit b (hb b hbm)


theorem uppercaseHex_length (d : List Nat) : (uppercaseHex d).length = 2 * d.length := by
  induction d with
  | nil => rfl
  | cons b d ih =>
    simp only [uppercaseHex, List.flatMap_cons, List.length_append, List.length_cons,
      List.length_nil] at ih ⊢
    omega

theorem uppercaseHex_mem (d : List Nat) (hb : ∀ b ∈ d, b < 256) :
    ∀ c ∈ uppercaseHex d, 48 ≤ c ∧ c ≤ 70 := by
  intro c hc
  simp only [uppercaseHex, List.mem_flatMap, List.mem_cons, List.mem_singleton,
    List.not_mem_nil, or_false] at hc
  obtain ⟨b, hbm, hc⟩ := hc
  have := hb b hbm
  rcases hc with rfl | rfl <;> unfold hexDigit <;> split_ifs <;> omega

theorem wellFormed_append_newline {t : List Nat} (h10 : 10 ∉ t) (h0 : 0 ∉ t)
    (hlen : t.length + 1 ≤ 1023) : WellFormedLine (t ++ [10]) := by
  refine ⟨⟨by simp, by simpa using h10, by simpa using hlen⟩, ?_⟩
  simp [h0]

theorem digestLine_wellFormed (d : List Nat) (hd : d.length = MD5_SIZE)
    (hb : ∀ b ∈ d, b < 256) : WellFormedLine (uppercaseHex d ++ [10]) := by
  apply wellFormed_append_newline
  · intro h; have := uppercaseHex_mem d hb 10 h; omega
  · intro h; have := uppercaseHex_mem d hb 0 h; omega
  · rw [uppercaseHex_length, hd]; decide

/-! ## The check on a source made of well-formed lines -/

/-- After the read loop: the check of a source made of the well-formed body
lines `ls` and the well-formed last line `last`. -/
theorem check_of_lines (h : LicenseH) (md5 : MD5) (w : World) (now : Tm) (stack : Nat → Nat)
    (ls : List (List Nat)) (last : List Nat)
    (hls : ∀ l ∈ ls, WellFormedLine l) (hlast : WellFormedLine last)
    (hcount : ls.length + 1 ≤ MAX_LICENSE_LINES)
    (hopen : open_license_file w = some ⟨ls.flatten ++ last, false⟩) :
    passenger_enterprise_license_check h md5 w now stack none =
      match decodeLoop last (MD5_SIZE + 1) 0 (uninitialized stack) 0 with
      | none => none
      | some readDigest =>
        if memcmp (md5.digest (ls.flatten ++ LICENSE_SECRET)) readDigest MD5_SIZE ≠ 0 then
          some ⟨some (msgInvalid h), none, true⟩
        else
          match findExpiresAfterDate ls.flatten with
          | none => none
          | some expiresAfter =>
            if compareDates (expiresAfter.map (fun p => ls.flatten.drop p)) now = 0 then
              some ⟨some (msgExpiredAfterFree h (cstr w.freedAtStrlen)
                (cstr w.freedAtSnprintf)), none, true⟩
            else some ⟨none, some ls.flatten, true⟩ := by
  have hread := readLoop_lines h (ls ++ [last]) [] (MAX_LICENSE_LINES + 1)
    (by
      intro l hl
      rcases List.mem_append.mp hl with hl | hl
      · exact hls l hl
      · simp only [List.mem_singleton] at hl; subst hl; exact hlast)
    (by simpa using hcount) (by simp; omega)
  simp only [List.flatten_append, List.flatten_cons, List.flatten_nil, List.append_nil,
    List.nil_append] at hread
  unfold passenger_enterprise_license_check
  simp only [hopen, hread, List.length_append, List.length_cons, List.length_nil,
    Nat.add_eq_zero, Nat.succ_ne_zero, and_false, if_false, Nat.add_sub_cancel,
    List.take_left', List.getD_eq_getElem?_getD]
  simp


/-! ## Digest verification: C1 and C2 -/

/-- C1: a source made of a body of at most 29 well-formed lines without the text
`Expires after:`, followed by the upper-case hexadecimal digest of the body and
the secret, is accepted from the not-validated state on every current date, and
the body is retained as `licenseKey`. -/
theorem valid_source_accepted (h : LicenseH) (md5 : MD5) (w : World) (now : Tm)
    (stack : Nat → Nat) (ls : List (List Nat))
    (hls : ∀ l ∈ ls, WellFormedLine l) (hcount : ls.length ≤ 29)
    (hkey : ¬ EXPIRES_AFTER_KEY <:+: ls.flatten)
    (hopen : open_license_file w = some ⟨licenseSource md5 ls.flatten, false⟩) :
    passenger_enterprise_license_check h md5 w now stack none
      = some ⟨none, some ls.flatten, true⟩ := by
  have hd := md5.size_eq (ls.flatten ++ LICENSE_SECRET)
  have hb := md5.byte_lt (ls.flatten ++ LICENSE_SECRET)
  rw [licenseSource, List.append_assoc] at hopen
  rw [check_of_lines h md5 w now stack ls _ hls (digestLine_wellFormed _ hd hb)
    (by simp [MAX_LICENSE_LINES]; omega) hopen]
  rw [decodeLoop_uppercaseHex _ _ _ hd hb (uninitialized_length stack)]
  have hm := (memcmp_eq_zero_iff MD5_SIZE _ _ hd hd).mpr rfl
  simp only [hm, ne_eq, not_true_eq_false, if_false]
  simp [findExpiresAfterDate, strstr_none hkey, compareDates]

set_option maxRecDepth 100000 in
/-- Witness of C1: the lines `hello` and `world` followed by their digest line. -/
theorem valid_source_accepted_witness :
    ((∀ l ∈ [bytes "hello\n", bytes "world\n"], WellFormedLine l)
      ∧ [bytes "hello\n", bytes "world\n"].length ≤ 29
      ∧ ¬ EXPIRES_AFTER_KEY <:+: [bytes "hello\n", bytes "world\n"].flatten)
    ∧ passenger_enterprise_license_check sampleHeader sampleMD5
        (fileWorld (licenseSource sampleMD5 [bytes "hello\n", bytes "world\n"].flatten))
        ⟨124, 0, 1⟩ (fun _ => 0) none
      = some ⟨none, some [bytes "hello\n", bytes "world\n"].flatten, true⟩ :=
  ⟨⟨by decide, by decide, by decide⟩,
    valid_source_accepted sampleHeader sampleMD5 _ ⟨124, 0, 1⟩ (fun _ => 0)
      [bytes "hello\n", bytes "world\n"] (by decide) (by decide) (by decide) rfl⟩

/-- C2: a source whose last line is the upper-case hexadecimal text of 16 bytes
other than the digest of the body and the secret is rejected from the
not-validated state with the invalid-file message, and `licenseKey` stays `NULL`,
whatever the body holds and whatever the current date is. -/
theorem wrong_digest_rejected (h : LicenseH) (md5 : MD5) (w : World) (now : Tm)
    (stack : Nat → Nat) (ls : List (List Nat)) (d : List Nat)
    (hls : ∀ l ∈ ls, WellFormedLine l) (hcount : ls.length ≤ 29)
    (hd : d.length = 16) (hb : ∀ b ∈ d, b < 256)
    (hne : d ≠ md5.digest (ls.flatten ++ LICENSE_SECRET))
    (hopen : open_license_file w = some ⟨ls.flatten ++ uppercaseHex d ++ [10], false⟩) :
    passenger_enterprise_license_check h md5 w now stack none
      = some ⟨some (msgInvalid h), none, true⟩ := by
  rw [List.append_assoc] at hopen
  rw [check_of_lines h md5 w now stack ls _ hls (digestLine_wellFormed _ hd hb)
    (by simp [MAX_LICENSE_LINES]; omega) hopen]
  rw [decodeLoop_uppercaseHex _ _ _ hd hb (uninitialized_length stack)]
  have hm : memcmp (md5.digest (ls.flatten ++ LICENSE_SECRET)) d MD5_SIZE ≠ 0 := by
    intro h0
    exact hne ((memcmp_eq_zero_iff MD5_SIZE _ _ (md5.size_eq _) hd).mp h0).symm
  simp only [hm, ne_eq, not_false_eq_true, if_true]

set_option maxRecDepth 100000 in
/-- Witness of C2: the lines `hello` and `world` followed by 32 zero digits. -/
theorem wrong_digest_rejected_witness :
    ((∀ l ∈ [bytes "hello\n", bytes "world\n"], WellFormedLine l)
      ∧ [bytes "hello\n", bytes "world\n"].length ≤ 29
      ∧ (List.replicate 16 0).length = 16 ∧ (∀ b ∈ List.replicate 16 0, b < 256)
      ∧ List.replicate 16 0
          ≠ sampleMD5.digest ([bytes "hello\n", bytes "world\n"].flatten ++ LICENSE_SECRET))
    ∧ passenger_enterprise_license_check sampleHeader sampleMD5
        (fileWorld ([bytes "hello\n", bytes "world\n"].flatten
          ++ uppercaseHex (List.replicate 16 0) ++ [10]))
        ⟨124, 0, 1⟩ (fun _ => 0) none
      = some ⟨some (msgInvalid sampleHeader), none, true⟩ :=
  ⟨⟨by decide, by decide, by decide, by decide, by decide⟩,
    wrong_digest_rejected sampleHeader sampleMD5 _ ⟨124, 0, 1⟩ (fun _ => 0)
      [bytes "hello\n", bytes "world\n"] (List.replicate 16 0) (by decide) (by decide)
      (by decide) (by decide) (by decide) rfl⟩


/-! ## The already-checked state: C5 -/

/-- C5: when `licenseKey` is already set, the check returns the fixed
already-checked message for every environment, source, date and stack content,
does not reach `open_license_file`, and leaves `licenseKey` as it is. -/
theorem already_checked (h : LicenseH) (md5 : MD5) (w : World) (now : Tm)
    (stack : Nat → Nat) (key : List Nat) :
    passenger_enterprise_license_check h md5 w now stack (some key)
      = some ⟨some (bytes "Phusion Passenger Enterprise license key already checked."),
          some key, false⟩ := rfl

/-! ## Hexadecimal decoding: C9 and C10 -/

/-- C9: decoding the line made of the upper-case hexadecimal text of a 16-byte
digest and a newline yields the 16 bytes of the digest, whatever the digest
buffer held before; `hexNibbleToByte` maps the characters `0123456789ABCDEF` to
the values 0 to 15. -/
theorem hex_round_trip (d : List Nat) (stack : Nat → Nat) (hd : d.length = 16)
    (hb : ∀ b ∈ d, b < 256) :
    decodeLoop (uppercaseHex d ++ [10]) (MD5_SIZE + 1) 0 (uninitialized stack) 0 = some d
      ∧ (bytes "0123456789ABCDEF").map hexNibbleToByte = List.range 16
      ∧ (List.range 16).map hexDigit = bytes "0123456789ABCDEF" :=
  ⟨decodeLoop_uppercaseHex d [10] _ hd hb (uninitialized_length stack), by decide, by decide⟩

set_option maxRecDepth 100000 in
/-- Witness of C9: the digest `00 01 ... 0E FF`. -/
theorem hex_round_trip_witness :
    ((List.range 15 ++ [255]).length = 16 ∧ (∀ b ∈ List.range 15 ++ [255], b < 256))
    ∧ (decodeLoop (uppercaseHex (List.range 15 ++ [255]) ++ [10]) (MD5_SIZE + 1) 0
          (uninitialized (fun i => i + 7)) 0 = some (List.range 15 ++ [255])
      ∧ (bytes "0123456789ABCDEF").map hexNibbleToByte = List.range 16
      ∧ (List.range 16).map hexDigit = bytes "0123456789ABCDEF") :=
  ⟨⟨by decide, by decide⟩,
    hex_round_trip (List.range 15 ++ [255]) (fun i => i + 7) (by decide) (by decide)⟩

theorem isUpperHex_ne {c : Nat} (h : isUpperHex c = true) : c ≠ 32 ∧ c ≠ 10 := by
  simp only [isUpperHex, Bool.or_eq_true, Bool.and_eq_true, decide_eq_true_eq] at h
  omega

/-- C10: for at most 16 pairs of upper-case hexadecimal digits, each preceded by
any number of spaces, the decoder yields the same bytes as for the pairs written
without spaces: the byte of each pair, followed by the untouched rest of the
digest buffer. -/
theorem space_tolerance (groups : List (Nat × Nat × Nat)) (stack : Nat → Nat)
    (hn : groups.length ≤ 16)
    (hhex : ∀ g ∈ groups, isUpperHex g.2.1 = true ∧ isUpperHex g.2.2 = true) :
    decodeLoop (spaced groups ++ [10]) (MD5_SIZE + 1) 0 (uninitialized stack) 0
      = decodeLoop (spaced (groups.map (fun g => (0, g.2.1, g.2.2))) ++ [10]) (MD5_SIZE + 1) 0
          (uninitialized stack) 0
    ∧ decodeLoop (spaced groups ++ [10]) (MD5_SIZE + 1) 0 (uninitialized stack) 0
      = some (groups.map (fun g => pairByte g.2.1 g.2.2)
          ++ (uninitialized stack).drop groups.length) := by
  have h1 := decodeLoop_groups groups [] [10] (uninitialized stack) 0 (MD5_SIZE + 1)
    (fun g hg => isUpperHex_ne (hhex g hg).1) (by simp [MD5_SIZE]; omega)
    (by simp [MD5_SIZE]; omega) (uninitialized_length stack) (Or.inr (Or.inl rfl))
  have h2 := decodeLoop_groups (groups.map (fun g => (0, g.2.1, g.2.2))) [] [10]
    (uninitialized stack) 0 (MD5_SIZE + 1)
    (by
      intro g hg
      simp only [List.mem_map] at hg
      obtain ⟨g0, hg0, rfl⟩ := hg
      exact isUpperHex_ne (hhex g0 hg0).1)
    (by simp [MD5_SIZE]; omega) (by simp [MD5_SIZE]; omega) (uninitialized_length stack)
    (Or.inr (Or.inl rfl))
  simp only [List.nil_append, List.length_nil, List.take_zero, Nat.zero_add, List.map_map,
    List.length_map] at h1 h2
  rw [h1, h2]
  exact ⟨rfl, rfl⟩

set_option maxRecDepth 100000 in
/-- Witness of C10: the lines `AB CD` and `ABCD` both decode to the bytes 0xAB
and 0xCD. -/
theorem space_tolerance_witness :
    ([(0, 65, 66), (1, 67, 68)].length ≤ 16
      ∧ (∀ g ∈ [(0, 65, 66), (1, 67, 68)], isUpperHex g.2.1 = true ∧ isUpperHex g.2.2 = true)
      ∧ spaced [(0, 65, 66), (1, 67, 68)] ++ [10] = bytes "AB CD\n"
      ∧ spaced ([(0, 65, 66), (1, 67, 68)].map (fun g => (0, g.2.1, g.2.2))) ++ [10]
          = bytes "ABCD\n"
      ∧ [(0, 65, 66), (1, 67, 68)].map (fun g => pairByte g.2.1 g.2.2) = [0xAB, 0xCD])
    ∧ (decodeLoop (spaced [(0, 65, 66), (1, 67, 68)] ++ [10]) (MD5_SIZE + 1) 0
          (uninitialized (fun _ => 0)) 0
        = decodeLoop (spaced ([(0, 65, 66), (1, 67, 68)].map (fun g => (0, g.2.1, g.2.2)))
            ++ [10]) (MD5_SIZE + 1) 0 (uninitialized (fun _ => 0)) 0
      ∧ decodeLoop (spaced [(0, 65, 66), (1, 67, 68)] ++ [10]) (MD5_SIZE + 1) 0
          (uninitialized (fun _ => 0)) 0
        = some ([(0, 65, 66), (1, 67, 68)].map (fun g => pairByte g.2.1 g.2.2)
            ++ (uninitialized (fun _ => 0)).drop [(0, 65, 66), (1, 67, 68)].length)) :=
  ⟨⟨by decide, by decide, by decide, by decide, by decide⟩,
    space_tolerance [(0, 65, 66), (1, 67, 68)] (fun _ => 0) (by decide) (by decide)⟩


/-! ## Every call returns: C6 -/

theorem flatten_getLast (ls : List (List Nat)) (h : ∀ l ∈ ls, l.getLast? = some 10) :
    ls.flatten = [] ∨ ls.flatten.getLast? = some 10 := by
  induction ls with
  | nil => exact Or.inl rfl
  | cons l ls ih =>
    rw [List.flatten_cons]
    rcases ih (fun x hx => h x (List.mem_cons_of_mem _ hx)) with h0 | h1
    · rw [h0, List.append_nil]; exact Or.inr (h l (List.mem_cons_self _ _))
    · right
      have hne : ls.flatten ≠ [] := by intro hn; rw [hn] at h1; simp at h1
      rw [List.getLast?_append_of_ne_nil _ hne]; exact h1

/-! ### First characters of the messages -/

theorem head_append_literal (lit rest : List Nat) (c : Nat) (h : lit.head? = some c) :
    (lit ++ rest).head? = some c := by
  cases lit with
  | nil => simp at h
  | cons a t => simpa using h

theorem head_msgAlreadyChecked : msgAlreadyChecked.head? = some 80 := by decide

theorem head_msgCouldNotOpen (h : LicenseH) : (msgCouldNotOpen h).head? = some 67 :=
  head_append_literal _ _ _ (by decide)

theorem head_msgIoError (h : LicenseH) : (msgIoError h).head? = some 65 :=
  head_append_literal _ _ _ (by decide)

theorem head_msgCorrupted (h : LicenseH) : (msgCorrupted h).head? = some 84 :=
  head_append_literal _ _ _ (by decide)

theorem head_msgInvalid (h : LicenseH) : (msgInvalid h).head? = some 84 :=
  head_append_literal _ _ _ (by decide)

theorem head_msgExpired (h : LicenseH) (a b : List Nat) :
    (msgExpiredAfterFree h a b).head? = some 84 := by
  unfold msgExpiredAfterFree
  simp only [List.append_assoc]
  rw [List.head?_take, if_neg (by omega)]
  exact head_append_literal _ _ _ (by decide)

/-- The check returns from the not-validated state on every input; it calls
`open_license_file`, sets `licenseKey` exactly when it returns `NULL`, and its
message is not the already-checked message. -/
theorem check_total (h : LicenseH) (md5 : MD5) (w : World) (now : Tm) (stack : Nat → Nat) :
    ∃ r, passenger_enterprise_license_check h md5 w now stack none = some r
      ∧ (r.licenseKey ≠ none ↔ r.message = none) ∧ r.opened = true
      ∧ (∀ m, r.message = some m → m.head? ≠ some 80) := by
  have hC := head_msgCouldNotOpen h
  have hI := head_msgIoError h
  have hK := head_msgCorrupted h
  have hV := head_msgInvalid h
  have hE := head_msgExpired h
  unfold passenger_enterprise_license_check
  simp only
  cases hopen : open_license_file w with
  | none => exact ⟨_, rfl, by simp, rfl, by simp [hC]⟩
  | some f =>
    simp only
    obtain ⟨r, hr, herr, hok⟩ := readLoop_spec h (MAX_LICENSE_LINES + 1) f [] (by simp)
      (by simp) (by simp)
    rw [hr]
    cases r with
    | error m =>
      refine ⟨_, rfl, by simp, rfl, ?_⟩
      rcases herr m rfl with rfl | rfl
      · simp [hI]
      · simp [hK]
    | ok lines =>
      simp only
      by_cases hcount : lines.length = 0
      · rw [if_pos hcount]; exact ⟨_, rfl, by simp, rfl, by simp [hK]⟩
      · rw [if_neg hcount]
        have hlines := hok lines rfl
        have hlt : lines.length - 1 < lines.length := by omega
        have hlastmem : lines.getD (lines.length - 1) [] ∈ lines := by
          rw [List.getD_eq_getElem _ _ hlt]
          exact List.getElem_mem _
        obtain ⟨rd, hrd, _⟩ := decodeLoop_total (hlines _ hlastmem).1 (MD5_SIZE + 1) 0 0
          (uninitialized stack) (by simp) (by simp)
        rw [hrd]
        simp only
        by_cases hm : memcmp (md5.digest ((lines.take (lines.length - 1)).flatten
            ++ LICENSE_SECRET)) rd MD5_SIZE ≠ 0
        · rw [if_pos hm]; exact ⟨_, rfl, by simp, rfl, by simp [hV]⟩
        · rw [if_neg hm]
          obtain ⟨ea, hea, _⟩ := findExpiresAfterDate_total
            (flatten_getLast (lines.take (lines.length - 1))
              (fun l hl => (hlines l (List.mem_of_mem_take hl)).1))
          rw [hea]
          simp only
          split_ifs
          · exact ⟨_, rfl, by simp, rfl, by simp [hE]⟩
          · exact ⟨_, rfl, by simp, rfl, by simp⟩

/-- C6: from the not-validated state the check returns on every source and
date, and afterwards `licenseKey` is set if and only if the returned message is
`NULL`; after a failure a later call behaves as a call from the not-validated
state: it reaches `open_license_file` again and does not report the
already-checked message. -/
theorem key_set_iff_success (h : LicenseH) (md5 : MD5) (w : World) (now : Tm)
    (stack : Nat → Nat) :
    ∃ r, passenger_enterprise_license_check h md5 w now stack none = some r
      ∧ (r.licenseKey ≠ none ↔ r.message = none)
      ∧ (r.message ≠ none → ∀ w1 now1 stack1,
          ∃ r1, passenger_enterprise_license_check h md5 w1 now1 stack1 r.licenseKey = some r1
            ∧ r1.opened = true ∧ r1.message ≠ some msgAlreadyChecked) := by
  obtain ⟨r, hr, hiff, _, _⟩ := check_total h md5 w now stack
  refine ⟨r, hr, hiff, ?_⟩
  intro hfail w1 now1 stack1
  have hkey : r.licenseKey = none := by
    by_contra hk
    exact hfail (hiff.mp hk)
  rw [hkey]
  obtain ⟨r1, hr1, _, hopened, hhead⟩ := check_total h md5 w1 now1 stack1
  refine ⟨r1, hr1, hopened, ?_⟩
  intro hmsg
  exact hhead _ hmsg head_msgAlreadyChecked


set_option maxRecDepth 100000 in
/-- Witness of C6: the unterminated source `hello` fails and leaves `licenseKey`
unset; the next call, on a valid source, opens it and succeeds. -/
theorem key_set_iff_success_witness :
    passenger_enterprise_license_check sampleHeader sampleMD5 (fileWorld (bytes "hello"))
        ⟨124, 0, 1⟩ (fun _ => 0) none
      = some ⟨some (msgCorrupted sampleHeader), none, true⟩
    ∧ ∃ r1, passenger_enterprise_license_check sampleHeader sampleMD5
        (fileWorld (licenseSource sampleMD5 (bytes "hello\n"))) ⟨124, 0, 2⟩ (fun _ => 0)
        (none : Option (List Nat)) = some r1
      ∧ r1.opened = true ∧ r1.message ≠ some msgAlreadyChecked := by
  obtain ⟨r, hr, _, hlater⟩ := key_set_iff_success sampleHeader sampleMD5
    (fileWorld (bytes "hello")) ⟨124, 0, 1⟩ (fun _ => 0)
  have hrun : passenger_enterprise_license_check sampleHeader sampleMD5
      (fileWorld (bytes "hello")) ⟨124, 0, 1⟩ (fun _ => 0) none
      = some ⟨some (msgCorrupted sampleHeader), none, true⟩ := by decide
  rw [hrun] at hr
  simp only [Option.some.injEq] at hr
  subst hr
  exact ⟨hrun, hlater (by simp) (fileWorld (licenseSource sampleMD5 (bytes "hello\n")))
    ⟨124, 0, 2⟩ (fun _ => 0)⟩

/-! ## Corrupted sources: C7 and C8 -/

theorem getElem?_append_literal (lit rest : List Nat) (i c : Nat) (h : lit[i]? = some c) :
    (lit ++ rest)[i]? = some c := by
  have hi : i < lit.length := by
    by_contra hn
    rw [List.getElem?_eq_none (by omega)] at h
    cases h
  rw [List.getElem?_append_left hi]; exact h

theorem msgExpired_ne_msgCorrupted (h : LicenseH) (a b : List Nat) :
    msgExpiredAfterFree h a b ≠ msgCorrupted h := by
  intro heq
  have h1 : (msgCorrupted h)[46]? = some 97 := getElem?_append_literal _ _ _ _ (by decide)
  have h2 : (msgExpiredAfterFree h a b)[46]? = some 105 := by
    unfold msgExpiredAfterFree
    simp only [List.append_assoc]
    rw [List.getElem?_take_of_lt]
    · exact getElem?_append_literal _ _ _ _ (by decide)
    · have : (bytes "The Phusion Passenger Enterprise license file is invalid: expired since .\n").length
          = 74 := by decide
      omega
  rw [heq, h1] at h2
  cases h2

/-- C7: a source of more than 30 terminated lines is rejected as corrupted,
whatever its lines hold; a source of 29 well-formed body lines and the correct
digest line is not: it is accepted with the body retained, or rejected as
expired. -/
theorem line_count_limit (h : LicenseH) (md5 : MD5) (w : World) (now : Tm)
    (stack : Nat → Nat) (ls : List (List Nat)) :
    ((∀ l ∈ ls, TerminatedLine l) → 30 < ls.length →
      ∀ io, open_license_file w = some ⟨ls.flatten, io⟩ →
        passenger_enterprise_license_check h md5 w now stack none
          = some ⟨some (msgCorrupted h), none, true⟩)
    ∧ ((∀ l ∈ ls, WellFormedLine l) → ls.length = 29 →
      open_license_file w = some ⟨licenseSource md5 ls.flatten, false⟩ →
        ∃ r, passenger_enterprise_license_check h md5 w now stack none = some r
          ∧ r.message ≠ some (msgCorrupted h)
          ∧ (r = ⟨none, some ls.flatten, true⟩
              ∨ ∃ a b, r = ⟨some (msgExpiredAfterFree h a b), none, true⟩)) := by
  constructor
  · intro hterm hmany io hopen
    have hread := readLoop_too_many h io ls [] (MAX_LICENSE_LINES + 1) hterm
      (by simpa [MAX_LICENSE_LINES] using hmany) (by simp) (by simp)
    unfold passenger_enterprise_license_check
    simp only [hopen, hread]
  · intro hls hcount hopen
    have hd := md5.size_eq (ls.flatten ++ LICENSE_SECRET)
    have hb := md5.byte_lt (ls.flatten ++ LICENSE_SECRET)
    rw [licenseSource, List.append_assoc] at hopen
    rw [check_of_lines h md5 w now stack ls _ hls (digestLine_wellFormed _ hd hb)
      (by simp [MAX_LICENSE_LINES]; omega) hopen]
    rw [decodeLoop_uppercaseHex _ _ _ hd hb (uninitialized_length stack)]
    have hm := (memcmp_eq_zero_iff MD5_SIZE _ _ hd hd).mpr rfl
    simp only [hm, ne_eq, not_true_eq_false, if_false]
    obtain ⟨ea, hea, _⟩ := findExpiresAfterDate_total
      (flatten_getLast ls (fun l hl => (hls l hl).1.1))
    rw [hea]
    simp only
    split_ifs
    · refine ⟨_, rfl, ?_, Or.inr ⟨_, _, rfl⟩⟩
      simp only [ne_eq, Option.some.injEq]
      exact msgExpired_ne_msgCorrupted h _ _
    · exact ⟨_, rfl, by simp, Or.inl rfl⟩

/-- C8: a source that is empty, or that does not end in a newline (its final
line is cut off at end-of-input), is rejected as corrupted and no body is
retained. -/
theorem unterminated_source_corrupted (h : LicenseH) (md5 : MD5) (w : World) (now : Tm)
    (stack : Nat → Nat) (src : List Nat)
    (hsrc : src = [] ∨ src.getLast? ≠ some 10)
    (hopen : open_license_file w = some ⟨src, false⟩) :
    passenger_enterprise_license_check h md5 w now stack none
      = some ⟨some (msgCorrupted h), none, true⟩ := by
  unfold passenger_enterprise_license_check
  simp only [hopen]
  by_cases hnil : src = []
  · subst hnil
    simp [readLoop, fgets_nil, ferror]
  · have hlast : src.getLast? ≠ some 10 := by
      rcases hsrc with hs | hs
      · exact absurd hs hnil
      · exact hs
    rw [readLoop_unterminated h (MAX_LICENSE_LINES + 1) ⟨src, false⟩ [] rfl hnil hlast
      (by simp) (by simp)]


set_option maxRecDepth 100000 in
/-- Witness of C7: 30 lines `a` followed by their correct digest line (31 lines)
are rejected as corrupted; 29 lines `a` followed by their digest line are
accepted. -/
theorem line_count_limit_witness :
    ((∀ l ∈ List.replicate 30 (bytes "a\n")
          ++ [uppercaseHex (sampleMD5.digest ((List.replicate 30 (bytes "a\n")).flatten
                ++ LICENSE_SECRET)) ++ [10]], TerminatedLine l)
      ∧ 30 < (List.replicate 30 (bytes "a\n")
          ++ [uppercaseHex (sampleMD5.digest ((List.replicate 30 (bytes "a\n")).flatten
                ++ LICENSE_SECRET)) ++ [10]]).length
      ∧ (∀ l ∈ List.replicate 29 (bytes "a\n"), WellFormedLine l)
      ∧ (List.replicate 29 (bytes "a\n")).length = 29)
    ∧ passenger_enterprise_license_check sampleHeader sampleMD5
        (fileWorld (List.replicate 30 (bytes "a\n")
          ++ [uppercaseHex (sampleMD5.digest ((List.replicate 30 (bytes "a\n")).flatten
                ++ LICENSE_SECRET)) ++ [10]]).flatten)
        ⟨124, 0, 1⟩ (fun _ => 0) none
      = some ⟨some (msgCorrupted sampleHeader), none, true⟩
    ∧ ∃ r, passenger_enterprise_license_check sampleHeader sampleMD5
        (fileWorld (licenseSource sampleMD5 (List.replicate 29 (bytes "a\n")).flatten))
        ⟨124, 0, 1⟩ (fun _ => 0) none = some r
      ∧ r.message ≠ some (msgCorrupted sampleHeader)
      ∧ (r = ⟨none, some (List.replicate 29 (bytes "a\n")).flatten, true⟩
          ∨ ∃ a b, r = ⟨some (msgExpiredAfterFree sampleHeader a b), none, true⟩) :=
  ⟨⟨by decide, by decide, by decide, by decide⟩,
    (line_count_limit sampleHeader sampleMD5
      (fileWorld (List.replicate 30 (bytes "a\n")
        ++ [uppercaseHex (sampleMD5.digest ((List.replicate 30 (bytes "a\n")).flatten
              ++ LICENSE_SECRET)) ++ [10]]).flatten)
      ⟨124, 0, 1⟩ (fun _ => 0)
      (List.replicate 30 (bytes "a\n")
        ++ [uppercaseHex (sampleMD5.digest ((List.replicate 30 (bytes "a\n")).flatten
              ++ LICENSE_SECRET)) ++ [10]])).1
      (by decide) (by decide) false (by rfl),
    (line_count_limit sampleHeader sampleMD5
      (fileWorld (licenseSource sampleMD5 (List.replicate 29 (bytes "a\n")).flatten))
      ⟨124, 0, 1⟩ (fun _ => 0)
      (List.replicate 29 (bytes "a\n"))).2 (by decide) (by decide) (by rfl)⟩

set_option maxRecDepth 100000 in
/-- Witness of C8: the single unterminated line `hello`. -/
theorem unterminated_source_corrupted_witness :
    (bytes "hello" = [] ∨ (bytes "hello").getLast? ≠ some 10)
    ∧ passenger_enterprise_license_check sampleHeader sampleMD5 (fileWorld (bytes "hello"))
        ⟨124, 0, 1⟩ (fun _ => 0) none
      = some ⟨some (msgCorrupted sampleHeader), none, true⟩ :=
  ⟨by decide,
    unterminated_source_corrupted sampleHeader sampleMD5 _ ⟨124, 0, 1⟩ (fun _ => 0)
      (bytes "hello") (by decide) rfl⟩

/-! ## Dates: C4 -/

theorem decimal_four_digits (y : Nat) (h1 : 1000 ≤ y) (h2 : y ≤ 9999) :
    decimal y = [48 + y / 1000 % 10, 48 + y / 100 % 10, 48 + y / 10 % 10, 48 + y % 10] := by
  obtain ⟨k, rfl⟩ : ∃ k, y = k + 3 := ⟨y - 3, by omega⟩
  simp only [decimal, decimalAux]
  rw [if_neg (by omega), if_neg (by omega), if_neg (by omega), if_pos (by omega)]
  simp only [List.cons.injEq, and_true]
  omega

theorem printf_02d_two_digits : ∀ m : Nat, m < 100 →
    printf_02d (m : Int) = [48 + m / 10 % 10, 48 + m % 10] := by
  decide

theorem toInt32_small (x : Int) (h1 : -2147483648 ≤ x) (h2 : x < 2147483648) :
    toInt32 x = x := by
  unfold toInt32; omega

/-- The text that `compareDates` formats for a date with a four-digit year. -/
theorem checkDateChars_eq (t : Tm) (y m d : Nat) (hy : t.tm_year + 1900 = y)
    (hm : t.tm_mon + 1 = m) (hd : t.tm_mday = d) (hy1 : 1000 ≤ y) (hy2 : y ≤ 9999)
    (hm2 : m < 100) (hd2 : d < 100) : checkDateChars t = isoDate y m d := by
  unfold checkDateChars
  rw [hy, hm, hd, toInt32_small _ (by omega) (by omega), toInt32_small _ (by omega) (by omega),
    printf_02d_two_digits m hm2, printf_02d_two_digits d hd2]
  have : printf_d (y : Int) = decimal y := by
    unfold printf_d; rw [if_neg (by omega)]; rfl
  rw [this, decimal_four_digits y hy1 hy2]
  rfl

theorem strcmp_isoDate (y m d y' m' d' : Nat) (hy : y < 10000) (hy' : y' < 10000)
    (hm : m < 100) (hm' : m' < 100) (hd : d < 100) (hd' : d' < 100) :
    0 ≤ strcmp (isoDate y m d) (isoDate y' m' d') ↔ dateLE y' m' d' y m d := by
  unfold isoDate dateLE
  simp only [strcmp, if_true]
  split_ifs <;> omega


theorem strcmp_isoDate_line (y m d y' m' d' : Nat) (post : List Nat) (hy : y < 10000)
    (hy' : y' < 10000) (hm : m < 100) (hm' : m' < 100) (hd : d < 100) (hd' : d' < 100) :
    (0 ≤ strcmp (isoDate y m d ++ 10 :: post) (isoDate y' m' d') ↔ dateLE y' m' d' y m d)
      ∧ (strcmp (isoDate y m d ++ 10 :: post) (isoDate y' m' d') ≠ 0) := by
  unfold isoDate dateLE
  simp only [List.cons_append, List.nil_append, strcmp, if_true]
  split_ifs <;> omega

/-- C4: for an expiration date written as `YYYY-MM-DD` and a check date, both
with a four-digit year, a month from 1 to 12 and a day from 1 to 31,
`compareDates` returns 1 exactly when the expiration date is chronologically on
or after the check date, and 0 exactly when it is before. -/
theorem compareDates_chronological (t : Tm) (y m d : Nat)
    (hy : 1000 ≤ y ∧ y ≤ 9999) (hm : 1 ≤ m ∧ m ≤ 12) (hd : 1 ≤ d ∧ d ≤ 31)
    (hty : 1000 ≤ t.tm_year + 1900 ∧ t.tm_year + 1900 ≤ 9999)
    (htm : 0 ≤ t.tm_mon ∧ t.tm_mon ≤ 11) (htd : 1 ≤ t.tm_mday ∧ t.tm_mday ≤ 31) :
    (compareDates (some (isoDate y m d)) t = 1
        ↔ dateLE (t.tm_year + 1900) (t.tm_mon + 1) t.tm_mday y m d)
      ∧ (compareDates (some (isoDate y m d)) t = 0
        ↔ ¬ dateLE (t.tm_year + 1900) (t.tm_mon + 1) t.tm_mday y m d) := by
  obtain ⟨ty, hty'⟩ : ∃ n : Nat, t.tm_year + 1900 = n := ⟨(t.tm_year + 1900).toNat, by omega⟩
  obtain ⟨tm, htm'⟩ : ∃ n : Nat, t.tm_mon + 1 = n := ⟨(t.tm_mon + 1).toNat, by omega⟩
  obtain ⟨td, htd'⟩ : ∃ n : Nat, t.tm_mday = n := ⟨t.tm_mday.toNat, by omega⟩
  have hchars := checkDateChars_eq t ty tm td hty' htm' htd' (by omega) (by omega) (by omega)
    (by omega)
  have hcmp := strcmp_isoDate y m d ty tm td (by omega) (by omega) (by omega) (by omega)
    (by omega) (by omega)
  rw [hty', htm', htd', ← hcmp]
  unfold compareDates
  simp only [hchars, ge_iff_le]
  split_ifs with hc
  · simp [hc]
  · simp [hc]

/-- Witness of C4: expiration 2024-02-29 against the check date 2024-03-01. -/
theorem compareDates_chronological_witness :
    ((1000 ≤ 2024 ∧ 2024 ≤ 9999) ∧ (1 ≤ 2 ∧ 2 ≤ 12) ∧ (1 ≤ 29 ∧ 29 ≤ 31)
      ∧ (1000 ≤ (124 : Int) + 1900 ∧ (124 : Int) + 1900 ≤ 9999)
      ∧ ((0 : Int) ≤ 2 ∧ (2 : Int) ≤ 11) ∧ ((1 : Int) ≤ 1 ∧ (1 : Int) ≤ 31))
    ∧ ((compareDates (some (isoDate 2024 2 29)) ⟨124, 2, 1⟩ = 1
          ↔ dateLE ((124 : Int) + 1900) ((2 : Int) + 1) 1 (2024 : Nat) (2 : Nat) (29 : Nat))
      ∧ (compareDates (some (isoDate 2024 2 29)) ⟨124, 2, 1⟩ = 0
          ↔ ¬ dateLE ((124 : Int) + 1900) ((2 : Int) + 1) 1 (2024 : Nat) (2 : Nat) (29 : Nat)))
    ∧ compareDates (some (isoDate 2024 2 29)) ⟨124, 2, 1⟩ = 0
    ∧ isoDate 2024 2 29 = bytes "2024-02-29" :=
  ⟨⟨by decide, by decide, by decide, by decide, by decide, by decide⟩,
    compareDates_chronological ⟨124, 2, 1⟩ 2024 2 29 (by decide) (by decide) (by decide)
      (by decide) (by decide) (by decide), by decide, by decide⟩


/-! ## The expiration marker: C3 -/

theorem strstr_at_start (needle rest : List Nat) : strstr (needle ++ rest) needle = some 0 := by
  have hp : needle.isPrefixOf (needle ++ rest) = true :=
    List.isPrefixOf_iff_prefix.mpr (List.prefix_append _ _)
  cases hl : needle ++ rest with
  | nil =>
    rw [hl] at hp
    rw [strstr, if_pos hp]
  | cons c t =>
    rw [hl] at hp
    rw [strstr, if_pos hp]

theorem strstr_skip_line (needle a rest : List Nat) (h10 : 10 ∉ needle)
    (hno : ¬ needle <:+: a ++ [10]) :
    strstr (a ++ [10] ++ rest) needle = (strstr rest needle).map (· + (a.length + 1)) := by
  induction a with
  | nil =>
    have hp : needle.isPrefixOf (10 :: rest) = false := by
      cases needle with
      | nil => exact absurd List.nil_infix hno
      | cons n ns =>
        have : n ≠ 10 := fun hn => h10 (by simp [hn])
        simp [List.isPrefixOf, this]
    show strstr (10 :: rest) needle = _
    rw [strstr, if_neg (by rw [hp]; simp)]
    rfl
  | cons c a ih =>
    have hp : needle.isPrefixOf (c :: (a ++ [10] ++ rest)) = false := by
      rw [Bool.eq_false_iff]
      intro hpre
      rw [List.isPrefixOf_iff_prefix] at hpre
      have h2 : (c :: a) ++ [10] <+: c :: (a ++ [10] ++ rest) := ⟨rest, by simp⟩
      rcases List.prefix_or_prefix_of_prefix hpre h2 with h3 | h3
      · exact hno h3.isInfix
      · exact h10 (h3.subset (by simp))
    have hno2 : ¬ needle <:+: a ++ [10] := by
      intro hi
      exact hno (hi.trans (List.suffix_cons c (a ++ [10])).isInfix)
    show strstr (c :: (a ++ [10] ++ rest)) needle = _
    rw [strstr, if_neg (by rw [hp]; simp), ih hno2, Option.map_map]
    congr 1

theorem strstr_skip_lines (needle : List Nat) (h10 : 10 ∉ needle) (ls : List (List Nat))
    (rest : List Nat) (hls : ∀ l ∈ ls, l.getLast? = some 10 ∧ ¬ needle <:+: l) :
    strstr (ls.flatten ++ rest) needle = (strstr rest needle).map (· + ls.flatten.length) := by
  induction ls with
  | nil => simp
  | cons l ls ih =>
    obtain ⟨hlast, hno⟩ := hls l (List.mem_cons_self _ _)
    have hl := List.dropLast_append_getLast? 10 (Option.mem_def.mpr hlast)
    rw [← hl] at hno
    rw [List.flatten_cons, List.append_assoc, ← hl,
      strstr_skip_line needle l.dropLast (ls.flatten ++ rest) h10 hno,
      ih (fun x hx => hls x (List.mem_cons_of_mem _ hx)), Option.map_map]
    congr 1
    funext x
    simp only [Function.comp, List.length_append, List.length_cons, List.length_nil]
    omega

/-- In a body whose first line with the key is the key, one space and a text that
does not start with a space, `findExpiresAfterDate` points at that text. -/
theorem findExpiresAfterDate_line (ls : List (List Nat)) (c : Nat) (rest : List Nat)
    (hls : ∀ l ∈ ls, l.getLast? = some 10 ∧ ¬ EXPIRES_AFTER_KEY <:+: l) (hc : c ≠ 32) :
    findExpiresAfterDate (ls.flatten ++ (EXPIRES_AFTER_KEY ++ 32 :: c :: rest))
      = some (some (ls.flatten.length + 15))
    ∧ (ls.flatten ++ (EXPIRES_AFTER_KEY ++ 32 :: c :: rest)).drop (ls.flatten.length + 15)
      = c :: rest := by
  have hk10 : 10 ∉ EXPIRES_AFTER_KEY := by decide
  have hklen : EXPIRES_AFTER_KEY.length = 14 := by decide
  have hstr := strstr_skip_lines EXPIRES_AFTER_KEY hk10 ls
    (EXPIRES_AFTER_KEY ++ 32 :: c :: rest) hls
  rw [strstr_at_start] at hstr
  have hsplit : ls.flatten ++ (EXPIRES_AFTER_KEY ++ 32 :: c :: rest)
      = (ls.flatten ++ (EXPIRES_AFTER_KEY ++ [32])) ++ (List.replicate 0 32 ++ c :: rest) := by
    simp
  have hlen : (ls.flatten ++ (EXPIRES_AFTER_KEY ++ [32])).length = ls.flatten.length + 15 := by
    simp [hklen]
  constructor
  · unfold findExpiresAfterDate
    rw [hstr]
    simp only [Option.map_some', Nat.zero_add, hklen]
    have hskip := skipSpaces_replicate (ls.flatten ++ (EXPIRES_AFTER_KEY ++ [32])) rest c hc 0
      ((ls.flatten ++ (EXPIRES_AFTER_KEY ++ 32 :: c :: rest)).length + 1) (by omega)
    rw [← hsplit, hlen] at hskip
    rw [hskip]
    rfl
  · rw [hsplit, ← hlen, List.drop_left]
    rfl


theorem expiresLine_eq (post : List Nat) :
    bytes "Expires after: 2000-01-01\n" ++ post
      = EXPIRES_AFTER_KEY ++ 32 :: 50 :: ([48, 48, 48, 45, 48, 49, 45, 48, 49, 10] ++ post) := by
  have : bytes "Expires after: 2000-01-01\n"
      = EXPIRES_AFTER_KEY ++ 32 :: 50 :: [48, 48, 48, 45, 48, 49, 45, 48, 49, 10] := by decide
  rw [this]; simp

theorem compareDates_line (t : Tm) (y m d : Nat) (post : List Nat)
    (hy : 1000 ≤ y ∧ y ≤ 9999) (hm : m < 100) (hd : d < 100)
    (hty : 1000 ≤ t.tm_year + 1900 ∧ t.tm_year + 1900 ≤ 9999)
    (htm : 0 ≤ t.tm_mon ∧ t.tm_mon ≤ 11) (htd : 1 ≤ t.tm_mday ∧ t.tm_mday ≤ 31) :
    compareDates (some (isoDate y m d ++ 10 :: post)) t
      = if dateLE (t.tm_year + 1900) (t.tm_mon + 1) t.tm_mday y m d then 1 else 0 := by
  obtain ⟨ty, hty'⟩ : ∃ n : Nat, t.tm_year + 1900 = n := ⟨(t.tm_year + 1900).toNat, by omega⟩
  obtain ⟨tm, htm'⟩ : ∃ n : Nat, t.tm_mon + 1 = n := ⟨(t.tm_mon + 1).toNat, by omega⟩
  obtain ⟨td, htd'⟩ : ∃ n : Nat, t.tm_mday = n := ⟨t.tm_mday.toNat, by omega⟩
  have hchars := checkDateChars_eq t ty tm td hty' htm' htd' (by omega) (by omega) (by omega)
    (by omega)
  have hcmp := (strcmp_isoDate_line y m d ty tm td post (by omega) (by omega) hm (by omega)
    hd (by omega)).1
  rw [hty', htm', htd']
  unfold compareDates
  simp only [hchars, ge_iff_le]
  by_cases hc : 0 ≤ strcmp (isoDate y m d ++ 10 :: post) (isoDate ty tm td)
  · rw [if_pos hc, if_pos (hcmp.mp hc)]
  · rw [if_neg hc, if_neg (fun hh => hc (hcmp.mpr hh))]

/-- C3, as the code has it: for a source with a correct digest whose body holds
the line `Expires after: 2000-01-01`, no earlier line holding the key, the check
succeeds and retains the body when the current local date is 2000-01-01, and
fails as expired, retaining nothing, on every current local date from 2000-01-02
to the end of year 9999. The expired message is the one built after
`free(licenseKey)`, from what the freed block holds. -/
theorem expires_after_2000_01_01 (h : LicenseH) (md5 : MD5) (w : World) (t : Tm)
    (stack : Nat → Nat) (ls1 ls2 : List (List Nat))
    (h1 : ∀ l ∈ ls1, WellFormedLine l ∧ ¬ EXPIRES_AFTER_KEY <:+: l)
    (h2 : ∀ l ∈ ls2, WellFormedLine l)
    (hcount : ls1.length + 1 + ls2.length ≤ 29)
    (hopen : open_license_file w = some ⟨licenseSource md5
      (ls1 ++ [bytes "Expires after: 2000-01-01\n"] ++ ls2).flatten, false⟩)
    (hty : t.tm_year + 1900 ≤ 9999) (htm : 0 ≤ t.tm_mon ∧ t.tm_mon ≤ 11)
    (htd : 1 ≤ t.tm_mday ∧ t.tm_mday ≤ 31) :
    (t = ⟨100, 0, 1⟩ →
      passenger_enterprise_license_check h md5 w t stack none
        = some ⟨none,
            some (ls1 ++ [bytes "Expires after: 2000-01-01\n"] ++ ls2).flatten, true⟩)
    ∧ (dateLE 2000 1 2 (t.tm_year + 1900) (t.tm_mon + 1) t.tm_mday →
      passenger_enterprise_license_check h md5 w t stack none
        = some ⟨some (msgExpiredAfterFree h (cstr w.freedAtStrlen) (cstr w.freedAtSnprintf)),
            none, true⟩) := by
  have hwf : ∀ l ∈ ls1 ++ [bytes "Expires after: 2000-01-01\n"] ++ ls2, WellFormedLine l := by
    intro l hl
    simp only [List.mem_append, List.mem_singleton] at hl
    rcases hl with (hl | hl) | hl
    · exact (h1 l hl).1
    · subst hl; decide
    · exact h2 l hl
  have hd := md5.size_eq ((ls1 ++ [bytes "Expires after: 2000-01-01\n"] ++ ls2).flatten
    ++ LICENSE_SECRET)
  have hb := md5.byte_lt ((ls1 ++ [bytes "Expires after: 2000-01-01\n"] ++ ls2).flatten
    ++ LICENSE_SECRET)
  rw [licenseSource, List.append_assoc] at hopen
  have hcheck := check_of_lines h md5 w t stack _ _ hwf (digestLine_wellFormed _ hd hb)
    (by simp [MAX_LICENSE_LINES]; omega) hopen
  rw [decodeLoop_uppercaseHex _ _ _ hd hb (uninitialized_length stack)] at hcheck
  have hm := (memcmp_eq_zero_iff MD5_SIZE _ _ hd hd).mpr rfl
  simp only [hm, ne_eq, not_true_eq_false, if_false] at hcheck
  have hbody : (ls1 ++ [bytes "Expires after: 2000-01-01\n"] ++ ls2).flatten
      = ls1.flatten ++ (EXPIRES_AFTER_KEY
          ++ 32 :: 50 :: ([48, 48, 48, 45, 48, 49, 45, 48, 49, 10] ++ ls2.flatten)) := by
    rw [← expiresLine_eq]; simp
  obtain ⟨hfind, hdrop⟩ := findExpiresAfterDate_line ls1 50
    ([48, 48, 48, 45, 48, 49, 45, 48, 49, 10] ++ ls2.flatten)
    (fun l hl => ⟨(h1 l hl).1.1.1, (h1 l hl).2⟩) (by decide)
  rw [← hbody] at hfind hdrop
  have hdate : (50 :: ([48, 48, 48, 45, 48, 49, 45, 48, 49, 10] ++ ls2.flatten))
      = isoDate 2000 1 1 ++ 10 :: ls2.flatten := by
    have : isoDate 2000 1 1 = [50, 48, 48, 48, 45, 48, 49, 45, 48, 49] := by decide
    rw [this]; rfl
  rw [hfind] at hcheck
  simp only [Option.map_some', hdrop, hdate, Option.getD_some] at hcheck
  rw [hcheck]
  constructor
  · intro ht
    subst ht
    have hc : compareDates (some (isoDate 2000 1 1 ++ 10 :: ls2.flatten)) ⟨100, 0, 1⟩ = 1 := by
      rw [compareDates_line _ 2000 1 1 _ (by decide) (by decide) (by decide) (by decide)
        (by decide) (by decide)]
      decide
    rw [hc]
    simp
  · intro hlate
    have hyear : 2000 ≤ t.tm_year + 1900 := by
      unfold dateLE at hlate; omega
    have hnot : ¬ dateLE (t.tm_year + 1900) (t.tm_mon + 1) t.tm_mday (2000 : Nat) (1 : Nat)
        (1 : Nat) := by
      unfold dateLE at hlate ⊢
      simp only [Nat.cast_ofNat, Nat.cast_one]
      omega
    have hc : compareDates (some (isoDate 2000 1 1 ++ 10 :: ls2.flatten)) t = 0 := by
      rw [compareDates_line t 2000 1 1 _ (by decide) (by decide) (by decide) ⟨by omega, hty⟩
        htm htd]
      exact if_neg hnot
    rw [hc]
    simp


set_option maxRecDepth 100000 in
/-- Witness of C3: the body `hello`, `Expires after: 2000-01-01`, `world` on
2000-01-01 and on 2024-01-01; the freed block reads back unchanged at
`expiresAfter`, offset 21. -/
theorem expires_after_2000_01_01_witness :
    ((∀ l ∈ [bytes "hello\n"], WellFormedLine l ∧ ¬ EXPIRES_AFTER_KEY <:+: l)
      ∧ (∀ l ∈ [bytes "world\n"], WellFormedLine l)
      ∧ [bytes "hello\n"].length + 1 + [bytes "world\n"].length ≤ 29
      ∧ dateLE 2000 1 2 ((124 : Int) + 1900) ((0 : Int) + 1) 1)
    ∧ passenger_enterprise_license_check sampleHeader sampleMD5
        (freedWorld (licenseSource sampleMD5
          ([bytes "hello\n"] ++ [bytes "Expires after: 2000-01-01\n"] ++ [bytes "world\n"]).flatten)
          (bytes "2000-01-01\nworld\n") (bytes "2000-01-01\nworld\n"))
        ⟨100, 0, 1⟩ (fun _ => 0) none
      = some ⟨none, some ([bytes "hello\n"] ++ [bytes "Expires after: 2000-01-01\n"]
          ++ [bytes "world\n"]).flatten, true⟩
    ∧ passenger_enterprise_license_check sampleHeader sampleMD5
        (freedWorld (licenseSource sampleMD5
          ([bytes "hello\n"] ++ [bytes "Expires after: 2000-01-01\n"] ++ [bytes "world\n"]).flatten)
          (bytes "2000-01-01\nworld\n") (bytes "2000-01-01\nworld\n"))
        ⟨124, 0, 1⟩ (fun _ => 0) none
      = some ⟨some (msgExpiredAfterFree sampleHeader
            (cstr (bytes "2000-01-01\nworld\n"))
            (cstr (bytes "2000-01-01\nworld\n"))), none, true⟩ :=
  ⟨⟨by decide, by decide, by decide, by decide⟩,
    (expires_after_2000_01_01 sampleHeader sampleMD5
      (freedWorld (licenseSource sampleMD5
        ([bytes "hello\n"] ++ [bytes "Expires after: 2000-01-01\n"] ++ [bytes "world\n"]).flatten)
        (bytes "2000-01-01\nworld\n") (bytes "2000-01-01\nworld\n"))
      ⟨100, 0, 1⟩ (fun _ => 0)
      [bytes "hello\n"] [bytes "world\n"] (by decide) (by decide) (by decide) rfl
      (by decide) (by decide) (by decide)).1 rfl,
    (expires_after_2000_01_01 sampleHeader sampleMD5
      (freedWorld (licenseSource sampleMD5
        ([bytes "hello\n"] ++ [bytes "Expires after: 2000-01-01\n"] ++ [bytes "world\n"]).flatten)
        (bytes "2000-01-01\nworld\n") (bytes "2000-01-01\nworld\n"))
      ⟨124, 0, 1⟩ (fun _ => 0)
      [bytes "hello\n"] [bytes "world\n"] (by decide) (by decide) (by decide) rfl
      (by decide) (by decide) (by decide)).2 (by decide)⟩

set_option maxRecDepth 100000 in
/-- Counterexample to C3 as stated: with a correct digest and the line
`Expires after: 2000-01-01` in the body, the check succeeds on 10000-01-01, and
it succeeds on 2024-01-01 when an earlier line holds `Expires after: 2999-12-31`;
both dates are after 2000-01-02. -/
theorem expires_after_2000_01_01_counterexample :
    (dateLE 2000 1 2 ((8100 : Int) + 1900) ((0 : Int) + 1) 1
      ∧ passenger_enterprise_license_check sampleHeader sampleMD5
          (fileWorld (licenseSource sampleMD5 (bytes "Expires after: 2000-01-01\n")))
          ⟨8100, 0, 1⟩ (fun _ => 0) none
        = some ⟨none, some (bytes "Expires after: 2000-01-01\n"), true⟩)
    ∧ (dateLE 2000 1 2 ((124 : Int) + 1900) ((0 : Int) + 1) 1
      ∧ passenger_enterprise_license_check sampleHeader sampleMD5
          (fileWorld (licenseSource sampleMD5
            (bytes "Expires after: 2999-12-31\nExpires after: 2000-01-01\n")))
          ⟨124, 0, 1⟩ (fun _ => 0) none
        = some ⟨none, some (bytes "Expires after: 2999-12-31\nExpires after: 2000-01-01\n"),
            true⟩) := by
  decide


/-! ## Lower-case digits: C11 -/

set_option maxRecDepth 100000 in
theorem pairByte_lowercase : ∀ hi, hi < 16 → ∀ lo, lo < 16 →
    pairByte (lowerHexDigit hi) (hexDigit lo) = pairByte (hexDigit hi) (hexDigit lo)
    ∧ pairByte (lowerHexDigit hi) (lowerHexDigit lo) = pairByte (hexDigit hi) (lowerHexDigit lo)
    ∧ (10 ≤ lo →
        pairByte (hexDigit hi) (lowerHexDigit lo) = pairByte (hexDigit hi) (hexDigit lo) ||| 32)
    ∧ (10 ≤ lo →
        (pairByte (hexDigit hi) (lowerHexDigit lo) ≠ pairByte (hexDigit hi) (hexDigit lo)
          ↔ hi / 2 % 2 = 0)) := by
  decide

/-- C11, as the code has it: in a pair of hexadecimal digits, a lower-case letter
in the high position decodes like its upper-case letter, and a lower-case letter
in the low position decodes to the byte of the upper-case pair with bit 0x20 set;
so the byte differs from the byte of the upper-case pair exactly when the low
digit is a lower-case letter and the high digit is one of 0, 1, 4, 5, 8, 9, C,
D. -/
theorem lowercase_digits (hi lo : Nat) (hhi : hi < 16) (hlo : lo < 16) :
    pairByte (lowerHexDigit hi) (hexDigit lo) = pairByte (hexDigit hi) (hexDigit lo)
    ∧ pairByte (lowerHexDigit hi) (lowerHexDigit lo) = pairByte (hexDigit hi) (lowerHexDigit lo)
    ∧ (10 ≤ lo →
        pairByte (hexDigit hi) (lowerHexDigit lo) = pairByte (hexDigit hi) (hexDigit lo) ||| 32)
    ∧ (10 ≤ lo →
        (pairByte (hexDigit hi) (lowerHexDigit lo) ≠ pairByte (hexDigit hi) (hexDigit lo)
          ↔ hi / 2 % 2 = 0)) :=
  pairByte_lowercase hi hhi lo hlo

/-- Witness of C11: the pairs `c0` and `0c` against `C0` and `0C`. -/
theorem lowercase_digits_witness :
    (12 < 16 ∧ 0 < 16 ∧ lowerHexDigit 12 = 99 ∧ hexDigit 12 = 67 ∧ hexDigit 0 = 48)
    ∧ (pairByte (lowerHexDigit 12) (hexDigit 0) = pairByte (hexDigit 12) (hexDigit 0)
      ∧ pairByte (lowerHexDigit 12) (lowerHexDigit 0)
          = pairByte (hexDigit 12) (lowerHexDigit 0)
      ∧ (10 ≤ 0 →
          pairByte (hexDigit 12) (lowerHexDigit 0)
            = pairByte (hexDigit 12) (hexDigit 0) ||| 32)
      ∧ (10 ≤ 0 →
          (pairByte (hexDigit 12) (lowerHexDigit 0) ≠ pairByte (hexDigit 12) (hexDigit 0)
            ↔ 12 / 2 % 2 = 0)))
    ∧ (10 ≤ 12 →
        (pairByte (hexDigit 0) (lowerHexDigit 12) ≠ pairByte (hexDigit 0) (hexDigit 12)
          ↔ 0 / 2 % 2 = 0)) :=
  ⟨by decide, lowercase_digits 12 0 (by decide) (by decide),
    (lowercase_digits 0 12 (by decide) (by decide)).2.2.2⟩

/-- Counterexample to C11 as stated: the pair `a0` holds a lower-case letter and
decodes to the same byte 0xA0 as `A0`, as does `2a` to the byte 0x2A of `2A`;
the lines `a0` and `A0` leave the same digest buffer. -/
theorem lowercase_digits_counterexample :
    pairByte 97 48 = pairByte 65 48 ∧ pairByte 65 48 = 0xA0
    ∧ pairByte 50 97 = pairByte 50 65 ∧ pairByte 50 65 = 0x2A
    ∧ decodeLoop (bytes "a0\n") (MD5_SIZE + 1) 0 (uninitialized (fun _ => 0)) 0
        = decodeLoop (bytes "A0\n") (MD5_SIZE + 1) 0 (uninitialized (fun _ => 0)) 0 := by
  decide

/-! ## Usage tracking: C13 -/

theorem strstr_isSome_iff (hay needle : List Nat) :
    (strstr hay needle).isSome = true ↔ needle <:+: hay := by
  constructor
  · intro h
    obtain ⟨i, hi⟩ := Option.isSome_iff_exists.mp h
    obtain ⟨rest, hdrop, _⟩ := strstr_some hi
    refine ⟨hay.take i, rest, ?_⟩
    rw [List.append_assoc, ← hdrop, List.take_append_drop]
  · intro h
    induction hay with
    | nil =>
      have hn : needle = [] := List.infix_nil.mp h
      subst hn
      rfl
    | cons c hay ih =>
      rw [strstr]
      split_ifs with hp
      · rfl
      · rcases List.infix_cons_iff.mp h with hpre | hinf
        · exact absurd (List.isPrefixOf_iff_prefix.mpr hpre) hp
        · have := ih hinf
          simpa using this

/-- C13: for every license body held in `licenseKey`,
`passenger_enterprise_should_track_usage` returns non-zero if and only if the
body contains `Cloud license` or `Heroku license` as a substring. -/
theorem track_usage_iff_substring (licenseKey : List Nat) :
    passenger_enterprise_should_track_usage licenseKey = true
      ↔ (bytes "Cloud license" <:+: licenseKey ∨ bytes "Heroku license" <:+: licenseKey) := by
  unfold passenger_enterprise_should_track_usage passenger_enterprise_on_cloud_license
    passenger_enterprise_on_heroku_license
  rw [Bool.or_eq_true, strstr_isSome_iff, strstr_isSome_iff]

/-! ## The format of the check date: C16 -/

/-- C16, as the code has it: for a check date with `tm_year + 1900` from 1000 to
9999, `tm_mon` from 0 to 11 and `tm_mday` from 1 to 31, the text that
`compareDates` formats has exactly 10 characters: the four digits of the year,
`-`, the month `tm_mon + 1` as two digits, `-`, the day as two digits. -/
theorem checkDate_format (t : Tm)
    (hy : 1000 ≤ t.tm_year + 1900 ∧ t.tm_year + 1900 ≤ 9999)
    (hm : 0 ≤ t.tm_mon ∧ t.tm_mon ≤ 11) (hd : 1 ≤ t.tm_mday ∧ t.tm_mday ≤ 31) :
    checkDateChars t
        = isoDate (t.tm_year + 1900).toNat (t.tm_mon + 1).toNat t.tm_mday.toNat
      ∧ (checkDateChars t).length = 10 := by
  have h := checkDateChars_eq t (t.tm_year + 1900).toNat (t.tm_mon + 1).toNat t.tm_mday.toNat
    (by omega) (by omega) (by omega) (by omega) (by omega) (by omega) (by omega)
  rw [h]
  exact ⟨rfl, rfl⟩

/-- Witness of C16: the check date 2024-03-01. -/
theorem checkDate_format_witness :
    ((1000 ≤ (124 : Int) + 1900 ∧ (124 : Int) + 1900 ≤ 9999)
      ∧ ((0 : Int) ≤ 2 ∧ (2 : Int) ≤ 11) ∧ ((1 : Int) ≤ 1 ∧ (1 : Int) ≤ 31))
    ∧ (checkDateChars ⟨124, 2, 1⟩
        = isoDate ((124 : Int) + 1900).toNat ((2 : Int) + 1).toNat (1 : Int).toNat
      ∧ (checkDateChars ⟨124, 2, 1⟩).length = 10)
    ∧ checkDateChars ⟨124, 2, 1⟩ = bytes "2024-03-01" :=
  ⟨by decide, checkDate_format ⟨124, 2, 1⟩ (by decide) (by decide) (by decide), by decide⟩

/-- Counterexample to C16 as stated: for the check date 999-01-01
(`tm_year = -901`) the formatted text is `999-01-01`, nine characters with a
three-digit year; for the year 0 it is `0-01-01`. -/
theorem checkDate_format_counterexample :
    ((0 : Int) ≤ -901 + 1900 ∧ (-901 : Int) + 1900 ≤ 9999)
    ∧ checkDateChars ⟨-901, 0, 1⟩ = bytes "999-01-01"
    ∧ (checkDateChars ⟨-901, 0, 1⟩).length = 9
    ∧ checkDateChars ⟨-1900, 0, 1⟩ = bytes "0-01-01" := by
  decide


/-! ## The failure messages: C12 -/

theorem msgExpired_eq (h : LicenseH) (ea : List Nat) :
    msgExpired h ea
      = bytes "The Phusion Passenger Enterprise license file is invalid: expired since "
          ++ ea ++ bytes ".\n" ++ h.EXPIRED_APPEAL_MESSAGE := by
  unfold msgExpired
  simp only
  apply List.take_of_length_le
  have h1 : (bytes "The Phusion Passenger Enterprise license file is invalid: expired since .\n").length
      = 74 := by decide
  have h2 : (bytes "The Phusion Passenger Enterprise license file is invalid: expired since ").length
      = 72 := by decide
  have h3 : (bytes ".\n").length = 2 := by decide
  simp only [List.length_append, h1, h2, h3]
  omega

/-- The messages the check can return from the not-validated state. -/
theorem check_message_cases (h : LicenseH) (md5 : MD5) (w : World) (now : Tm)
    (stack : Nat → Nat) :
    ∃ r, passenger_enterprise_license_check h md5 w now stack none = some r
      ∧ (r.message = none ∨ r.message = some (msgCouldNotOpen h)
        ∨ r.message = some (msgIoError h) ∨ r.message = some (msgCorrupted h)
        ∨ r.message = some (msgInvalid h)
        ∨ ∃ a b, r.message = some (msgExpiredAfterFree h a b)) := by
  unfold passenger_enterprise_license_check
  simp only
  cases hopen : open_license_file w with
  | none => exact ⟨_, rfl, Or.inr (Or.inl rfl)⟩
  | some f =>
    simp only
    obtain ⟨r, hr, herr, hok⟩ := readLoop_spec h (MAX_LICENSE_LINES + 1) f [] (by simp)
      (by simp) (by simp)
    rw [hr]
    cases r with
    | error m =>
      refine ⟨_, rfl, ?_⟩
      rcases herr m rfl with rfl | rfl
      · exact Or.inr (Or.inr (Or.inl rfl))
      · exact Or.inr (Or.inr (Or.inr (Or.inl rfl)))
    | ok lines =>
      simp only
      by_cases hcount : lines.length = 0
      · rw [if_pos hcount]; exact ⟨_, rfl, Or.inr (Or.inr (Or.inr (Or.inl rfl)))⟩
      · rw [if_neg hcount]
        have hlines := hok lines rfl
        have hlt : lines.length - 1 < lines.length := by omega
        have hlastmem : lines.getD (lines.length - 1) [] ∈ lines := by
          rw [List.getD_eq_getElem _ _ hlt]
          exact List.getElem_mem _
        obtain ⟨rd, hrd, _⟩ := decodeLoop_total (hlines _ hlastmem).1 (MD5_SIZE + 1) 0 0
          (uninitialized stack) (by simp) (by simp)
        rw [hrd]
        simp only
        by_cases hm : memcmp (md5.digest ((lines.take (lines.length - 1)).flatten
            ++ LICENSE_SECRET)) rd MD5_SIZE ≠ 0
        · rw [if_pos hm]
          exact ⟨_, rfl, Or.inr (Or.inr (Or.inr (Or.inr (Or.inl rfl))))⟩
        · rw [if_neg hm]
          obtain ⟨ea, hea, _⟩ := findExpiresAfterDate_total
            (flatten_getLast (lines.take (lines.length - 1))
              (fun l hl => (hlines l (List.mem_of_mem_take hl)).1))
          rw [hea]
          simp only
          split_ifs
          · exact ⟨_, rfl, Or.inr (Or.inr (Or.inr (Or.inr (Or.inr ⟨_, _, rfl⟩))))⟩
          · exact ⟨_, rfl, Or.inl rfl⟩

/-- The could-not-open, I/O-error, corrupted and invalid messages end with
`APPEAL_MESSAGE`; the format of the expired message, for a string that is read
intact, is the fixed text, the string, a period and a newline, and
`EXPIRED_APPEAL_MESSAGE`, and the buffer of `messageLen` bytes truncates nothing
of it; every message that the check returns from the not-validated state is one
of the four, or an expired message built after the free. -/
theorem failure_messages_end_with_appeal (h : LicenseH) (md5 : MD5) (w : World) (now : Tm)
    (stack : Nat → Nat) :
    (h.APPEAL_MESSAGE <:+ msgCouldNotOpen h ∧ h.APPEAL_MESSAGE <:+ msgIoError h
      ∧ h.APPEAL_MESSAGE <:+ msgCorrupted h ∧ h.APPEAL_MESSAGE <:+ msgInvalid h)
    ∧ (∀ expiresAfter, msgExpired h expiresAfter
        = bytes "The Phusion Passenger Enterprise license file is invalid: expired since "
            ++ expiresAfter ++ bytes ".\n" ++ h.EXPIRED_APPEAL_MESSAGE)
    ∧ ∃ r, passenger_enterprise_license_check h md5 w now stack none = some r
      ∧ (r.message = none ∨ r.message = some (msgCouldNotOpen h)
        ∨ r.message = some (msgIoError h) ∨ r.message = some (msgCorrupted h)
        ∨ r.message = some (msgInvalid h)
        ∨ ∃ a b, r.message = some (msgExpiredAfterFree h a b)) :=
  ⟨⟨List.suffix_append _ _, List.suffix_append _ _, List.suffix_append _ _,
      List.suffix_append _ _⟩,
    msgExpired_eq h, check_message_cases h md5 w now stack⟩

/-- When both reads through `expiresAfter` find the same string, the message
built after the free is the message of that string. -/
theorem msgExpiredAfterFree_same (h : LicenseH) (ea : List Nat) :
    msgExpiredAfterFree h ea ea = msgExpired h ea := rfl

/-- The message built after the free starts with the fixed text, whatever the
freed block holds. -/
theorem msgExpiredAfterFree_start (h : LicenseH) (a b : List Nat) :
    bytes "The Phusion Passenger Enterprise license file is invalid: expired since "
      <+: msgExpiredAfterFree h a b := by
  unfold msgExpiredAfterFree
  simp only [List.append_assoc]
  have h1 : (bytes "The Phusion Passenger Enterprise license file is invalid: expired since .\n").length
      = 74 := by decide
  have h2 : (bytes "The Phusion Passenger Enterprise license file is invalid: expired since ").length
      = 72 := by decide
  rw [List.prefix_take_iff]
  refine ⟨List.prefix_append _ _, ?_⟩
  rw [h1, h2]
  omega

set_option maxRecDepth 100000 in
/-- C12 at the source with the body `Expires after: 2000-01-01`, `world` and its
correct digest line, on 2024-01-01, when the first 16 bytes of the freed
`licenseKey` block are overwritten and its byte 15, where `expiresAfter` points,
reads back as 0xD3: the expiration string is `2000-01-01`, newline, `world`,
newline, but the returned message holds the byte 0xD3 in place of its first
character, so it is not the fixed text, the expiration string, a period and a
newline, and `EXPIRED_APPEAL_MESSAGE`. -/
theorem expired_message_read_after_free :
    (findExpiresAfterDate (bytes "Expires after: 2000-01-01\nworld\n")).map
        (Option.map (fun p => (bytes "Expires after: 2000-01-01\nworld\n").drop p))
      = some (some (bytes "2000-01-01\nworld\n"))
    ∧ passenger_enterprise_license_check sampleHeader sampleMD5
        (freedWorld (licenseSource sampleMD5 (bytes "Expires after: 2000-01-01\nworld\n"))
          (211 :: bytes "000-01-01\nworld\n") (211 :: bytes "000-01-01\nworld\n"))
        ⟨124, 0, 1⟩ (fun _ => 0) none
      = some ⟨some (bytes "The Phusion Passenger Enterprise license file is invalid: expired since "
            ++ 211 :: bytes "000-01-01\nworld\n" ++ bytes ".\n"
            ++ sampleHeader.EXPIRED_APPEAL_MESSAGE), none, true⟩
    ∧ bytes "The Phusion Passenger Enterprise license file is invalid: expired since "
          ++ 211 :: bytes "000-01-01\nworld\n" ++ bytes ".\n"
          ++ sampleHeader.EXPIRED_APPEAL_MESSAGE
      ≠ bytes "The Phusion Passenger Enterprise license file is invalid: expired since "
          ++ bytes "2000-01-01\nworld\n" ++ bytes ".\n"
          ++ sampleHeader.EXPIRED_APPEAL_MESSAGE := by
  decide


/-! ## The position after the key: C14 -/

theorem skipSpaces_le (s : List Nat) :
    ∀ (fuel p q : Nat), skipSpaces s fuel p = some q → p ≤ q := by
  intro fuel
  induction fuel with
  | zero => intro p q h; simp [skipSpaces] at h
  | succ fuel ih =>
    intro p q h
    rw [skipSpaces] at h
    cases hc : charAt s p with
    | none => rw [hc] at h; simp at h
    | some c =>
      rw [hc] at h
      simp only at h
      split_ifs at h
      · have := ih _ _ h; omega
      · simp only [Option.some.injEq] at h; omega

/-- With at least one space after the first key, `findExpiresAfterDate` points at
the first character after the spaces. -/
theorem findExpiresAfterDate_spaces (ls : List (List Nat)) (k c : Nat) (rest : List Nat)
    (hls : ∀ l ∈ ls, l.getLast? = some 10 ∧ ¬ EXPIRES_AFTER_KEY <:+: l) (hc : c ≠ 32)
    (hk : 1 ≤ k) :
    findExpiresAfterDate (ls.flatten ++ (EXPIRES_AFTER_KEY ++ (List.replicate k 32 ++ c :: rest)))
      = some (some (ls.flatten.length + 14 + k)) := by
  obtain ⟨k, rfl⟩ : ∃ n, k = n + 1 := ⟨k - 1, by omega⟩
  have hk10 : 10 ∉ EXPIRES_AFTER_KEY := by decide
  have hklen : EXPIRES_AFTER_KEY.length = 14 := by decide
  have hstr := strstr_skip_lines EXPIRES_AFTER_KEY hk10 ls
    (EXPIRES_AFTER_KEY ++ (List.replicate (k + 1) 32 ++ c :: rest)) hls
  rw [strstr_at_start] at hstr
  have hsplit : ls.flatten ++ (EXPIRES_AFTER_KEY ++ (List.replicate (k + 1) 32 ++ c :: rest))
      = (ls.flatten ++ (EXPIRES_AFTER_KEY ++ [32])) ++ (List.replicate k 32 ++ c :: rest) := by
    simp [List.replicate_succ]
  have hlen : (ls.flatten ++ (EXPIRES_AFTER_KEY ++ [32])).length = ls.flatten.length + 15 := by
    simp [hklen]
  unfold findExpiresAfterDate
  rw [hstr]
  simp only [Option.map_some', Nat.zero_add, hklen]
  have hskip := skipSpaces_replicate (ls.flatten ++ (EXPIRES_AFTER_KEY ++ [32])) rest c hc k
    ((ls.flatten ++ (EXPIRES_AFTER_KEY ++ (List.replicate (k + 1) 32 ++ c :: rest))).length + 1)
    (by simp; omega)
  rw [← hsplit, hlen] at hskip
  rw [hskip]
  simp only [Option.map_some', Option.some.injEq]
  omega

/-- Without a space after the first key, `findExpiresAfterDate` does not point
at the character after the key: it points past it. -/
theorem findExpiresAfterDate_no_space (ls : List (List Nat)) (c : Nat) (rest : List Nat)
    (hls : ∀ l ∈ ls, l.getLast? = some 10 ∧ ¬ EXPIRES_AFTER_KEY <:+: l) (p : Nat)
    (hp : findExpiresAfterDate (ls.flatten ++ (EXPIRES_AFTER_KEY ++ c :: rest))
      = some (some p)) :
    ls.flatten.length + 15 ≤ p := by
  have hk10 : 10 ∉ EXPIRES_AFTER_KEY := by decide
  have hklen : EXPIRES_AFTER_KEY.length = 14 := by decide
  have hstr := strstr_skip_lines EXPIRES_AFTER_KEY hk10 ls (EXPIRES_AFTER_KEY ++ c :: rest) hls
  rw [strstr_at_start] at hstr
  unfold findExpiresAfterDate at hp
  rw [hstr] at hp
  simp only [Option.map_some', Nat.zero_add, hklen] at hp
  cases hs : skipSpaces (ls.flatten ++ (EXPIRES_AFTER_KEY ++ c :: rest))
      ((ls.flatten ++ (EXPIRES_AFTER_KEY ++ c :: rest)).length + 1)
      (ls.flatten.length + (14 + 1)) with
  | none => rw [hs] at hp; simp at hp
  | some q =>
    rw [hs] at hp
    simp only [Option.map_some', Option.some.injEq] at hp
    subst hp
    have := skipSpaces_le _ _ _ _ hs
    omega

/-- C14 at the body `Expires after:2000-01-01`: the key is at offset 0 and is
followed by no space, and `findExpiresAfterDate` returns offset 15, the text
`000-01-01`, not offset 14, the text `2000-01-01`. -/
theorem findExpiresAfterDate_skips_date_character :
    strstr (bytes "Expires after:2000-01-01\n") EXPIRES_AFTER_KEY = some 0
    ∧ findExpiresAfterDate (bytes "Expires after:2000-01-01\n") = some (some 15)
    ∧ (bytes "Expires after:2000-01-01\n").drop 15 = bytes "000-01-01\n"
    ∧ (bytes "Expires after:2000-01-01\n").drop (0 + 14 + 0) = bytes "2000-01-01\n" := by
  decide

/-! ## The expiration string: C15 -/

set_option maxRecDepth 100000 in
/-- C15 at the body `Expires after: 2000-01-01`, `world` on 2024-01-01:
`expiresAfter` is offset 15 of the body, and the C string there, which
`compareDates` compares with today and finds expired, is `2000-01-01`, the line
terminator and the later line `world`, not the text `2000-01-01`; the message is
built through the same pointer, and when byte 15 of the freed block reads back
as 0xD3 it still holds the line terminator and the later line. -/
theorem expired_message_names_rest_of_body :
    findExpiresAfterDate (bytes "Expires after: 2000-01-01\nworld\n") = some (some 15)
    ∧ (bytes "Expires after: 2000-01-01\nworld\n").drop 15 = bytes "2000-01-01\nworld\n"
    ∧ bytes "2000-01-01\nworld\n" ≠ bytes "2000-01-01"
    ∧ compareDates (some ((bytes "Expires after: 2000-01-01\nworld\n").drop 15)) ⟨124, 0, 1⟩ = 0
    ∧ passenger_enterprise_license_check sampleHeader sampleMD5
        (freedWorld (licenseSource sampleMD5 (bytes "Expires after: 2000-01-01\nworld\n"))
          (211 :: bytes "000-01-01\nworld\n") (211 :: bytes "000-01-01\nworld\n"))
        ⟨124, 0, 1⟩ (fun _ => 0) none
      = some ⟨some (bytes "The Phusion Passenger Enterprise license file is invalid: expired since "
            ++ 211 :: bytes "000-01-01\nworld\n.\n"
            ++ sampleHeader.EXPIRED_APPEAL_MESSAGE), none, true⟩ := by
  decide

/-! ## A short digest line: C17 -/

set_option maxRecDepth 100000 in
/-- C17 at the source made of the line `hello` and an empty last line, when the
stack under `readDigest` holds the digest of the body and the secret: the check
accepts the source and retains the body, although the last line encodes no
digest byte; with zeros on the stack it rejects the same source as invalid. -/
theorem short_digest_line_accepted :
    passenger_enterprise_license_check sampleHeader sampleMD5 (fileWorld (bytes "hello\n\n"))
        ⟨124, 0, 1⟩
        (fun i => (sampleMD5.digest (bytes "hello\n" ++ LICENSE_SECRET)).getD i 0) none
      = some ⟨none, some (bytes "hello\n"), true⟩
    ∧ passenger_enterprise_license_check sampleHeader sampleMD5 (fileWorld (bytes "hello\n\n"))
        ⟨124, 0, 1⟩ (fun _ => 0) none
      = some ⟨some (msgInvalid sampleHeader), none, true⟩ := by
  decide


theorem uninitialized_of_digest (d : List Nat) (hd : d.length = MD5_SIZE)
    (hb : ∀ b ∈ d, b < 256) : uninitialized (fun i => d.getD i 0) = d := by
  apply List.ext_getElem
  · simp [uninitialized, hd]
  · intro i h1 h2
    simp only [uninitialized, List.getElem_map, List.getElem_range]
    rw [List.getD_eq_getElem _ _ h2]
    exact Nat.mod_eq_of_lt (hb _ (List.getElem_mem _))

theorem wellFormed_append_newline_iff (t : List Nat) :
    WellFormedLine (t ++ [10]) ↔ 10 ∉ t ∧ 0 ∉ t ∧ t.length + 1 ≤ 1023 := by
  constructor
  · rintro ⟨⟨_, h2, h3⟩, h4⟩
    refine ⟨by simpa using h2, ?_, by simpa using h3⟩
    intro h0
    exact h4 (List.mem_append_left _ h0)
  · rintro ⟨h1, h2, h3⟩
    exact wellFormed_append_newline h1 h2 h3

/-- For every digest function and body: when the stack under `readDigest` holds
the digest, a last line with only the first `k < 16` bytes of the digest is
accepted. -/
theorem short_digest_line_matches_stack (h : LicenseH) (md5 : MD5) (w : World) (now : Tm)
    (ls : List (List Nat)) (k : Nat)
    (hls : ∀ l ∈ ls, WellFormedLine l) (hcount : ls.length ≤ 29)
    (hkey : ¬ EXPIRES_AFTER_KEY <:+: ls.flatten)
    (hopen : open_license_file w = some ⟨ls.flatten
      ++ (uppercaseHex ((md5.digest (ls.flatten ++ LICENSE_SECRET)).take k) ++ [10]), false⟩) :
    passenger_enterprise_license_check h md5 w now
        (fun i => (md5.digest (ls.flatten ++ LICENSE_SECRET)).getD i 0) none
      = some ⟨none, some ls.flatten, true⟩ := by
  have hd := md5.size_eq (ls.flatten ++ LICENSE_SECRET)
  have hb := md5.byte_lt (ls.flatten ++ LICENSE_SECRET)
  have hbk : ∀ b ∈ (md5.digest (ls.flatten ++ LICENSE_SECRET)).take k, b < 256 :=
    fun b hm => hb b (List.mem_of_mem_take hm)
  have hlenk : ((md5.digest (ls.flatten ++ LICENSE_SECRET)).take k).length ≤ 16 := by
    rw [List.length_take, hd]; exact Nat.min_le_right _ _
  have hwf : WellFormedLine
      (uppercaseHex ((md5.digest (ls.flatten ++ LICENSE_SECRET)).take k) ++ [10]) := by
    apply wellFormed_append_newline
    · intro hm; have := uppercaseHex_mem _ hbk 10 hm; omega
    · intro hm; have := uppercaseHex_mem _ hbk 0 hm; omega
    · rw [uppercaseHex_length]; omega
  rw [check_of_lines h md5 w now _ ls _ hls hwf (by simp [MAX_LICENSE_LINES]; omega) hopen]
  rw [uninitialized_of_digest _ hd hb]
  have hg := decodeLoop_groups
    (((md5.digest (ls.flatten ++ LICENSE_SECRET)).take k).map
      (fun b => (0, hexDigit (b / 16), hexDigit (b % 16))))
    [] [10] (md5.digest (ls.flatten ++ LICENSE_SECRET)) 0 (MD5_SIZE + 1)
    (by
      intro g hgm
      simp only [List.mem_map] at hgm
      obtain ⟨b, hbm, rfl⟩ := hgm
      exact hexDigit_ne _ (by have := hbk b hbm; omega))
    (by simp only [List.length_map, MD5_SIZE]; omega)
    (by simp only [List.length_map, MD5_SIZE]; omega) hd (Or.inr (Or.inl rfl))
  rw [spaced_hex] at hg
  simp only [List.nil_append, List.length_nil, List.take_zero, List.map_map, List.length_map,
    Nat.zero_add] at hg
  have hmap : ((md5.digest (ls.flatten ++ LICENSE_SECRET)).take k).map
      ((fun g : Nat × Nat × Nat => pairByte g.2.1 g.2.2)
        ∘ fun b => (0, hexDigit (b / 16), hexDigit (b % 16)))
      = (md5.digest (ls.flatten ++ LICENSE_SECRET)).take k := by
    conv_rhs => rw [← List.map_id ((md5.digest (ls.flatten ++ LICENSE_SECRET)).take k)]
    apply List.map_congr_left
    intro b hbm
    exact pairByte_hexDigit b (hbk b hbm)
  rw [hmap, List.length_take, hd] at hg
  have hdrop : (md5.digest (ls.flatten ++ LICENSE_SECRET)).take k
      ++ (md5.digest (ls.flatten ++ LICENSE_SECRET)).drop (min k MD5_SIZE)
      = md5.digest (ls.flatten ++ LICENSE_SECRET) := by
    by_cases hk : k ≤ MD5_SIZE
    · rw [Nat.min_eq_left hk, List.take_append_drop]
    · rw [Nat.min_eq_right (by omega), List.take_of_length_le (by omega),
        List.drop_of_length_le (by omega), List.append_nil]
  rw [hdrop] at hg
  rw [hg]
  have hm := (memcmp_eq_zero_iff MD5_SIZE _ _ hd hd).mpr rfl
  simp only [hm, ne_eq, not_true_eq_false, if_false]
  simp [findExpiresAfterDate, strstr_none hkey, compareDates]

/-! ## Characters after the digest: C18 -/

theorem decodeLoop_sixteen_groups (groups : List (Nat × Nat × Nat)) (rest rd : List Nat)
    (hgroups : groups.length = MD5_SIZE)
    (hhex : ∀ g ∈ groups, isUpperHex g.2.1 = true ∧ isUpperHex g.2.2 = true)
    (hrd : rd.length = MD5_SIZE) :
    decodeLoop (spaced groups ++ rest) (MD5_SIZE + 1) 0 rd 0
      = some (groups.map (fun g => pairByte g.2.1 g.2.2)) := by
  have hg := decodeLoop_groups groups [] rest rd 0 (MD5_SIZE + 1)
    (fun g hg => isUpperHex_ne (hhex g hg).1) (by omega) (by omega) hrd
    (Or.inr (Or.inr (by omega)))
  simp only [List.nil_append, List.length_nil, List.take_zero, Nat.zero_add] at hg
  rw [hg, List.drop_of_length_le (by omega), List.append_nil]

/-- C18, as the code has it: for a source accepted by the check whose last line
starts with 16 pairs of upper-case hexadecimal digits (spaces allowed before
each pair), inserting extra characters other than newline and NUL after the
32nd digit, the line staying within 1023 bytes, leaves the outcome of the check
and the retained body unchanged. The same holds for a source that is not
accepted when the freed block reads back alike in both runs. -/
theorem extra_characters_after_digest (h : LicenseH) (md5 : MD5) (w1 w2 : World) (now : Tm)
    (stack : Nat → Nat) (ls : List (List Nat)) (groups : List (Nat × Nat × Nat))
    (rest extra : List Nat)
    (hls : ∀ l ∈ ls, WellFormedLine l) (hcount : ls.length ≤ 29)
    (hgroups : groups.length = 16)
    (hhex : ∀ g ∈ groups, isUpperHex g.2.1 = true ∧ isUpperHex g.2.2 = true)
    (hline : WellFormedLine (spaced groups ++ rest ++ [10]))
    (hextra : 10 ∉ extra ∧ 0 ∉ extra)
    (hlen : (spaced groups ++ extra ++ rest ++ [10]).length ≤ 1023)
    (hopen1 : open_license_file w1
      = some ⟨ls.flatten ++ (spaced groups ++ rest ++ [10]), false⟩)
    (hopen2 : open_license_file w2
      = some ⟨ls.flatten ++ (spaced groups ++ extra ++ rest ++ [10]), false⟩)
    (haccepted : (∃ r, passenger_enterprise_license_check h md5 w1 now stack none = some r
        ∧ r.message = none)
      ∨ (cstr w2.freedAtStrlen = cstr w1.freedAtStrlen
        ∧ cstr w2.freedAtSnprintf = cstr w1.freedAtSnprintf)) :
    passenger_enterprise_license_check h md5 w2 now stack none
      = passenger_enterprise_license_check h md5 w1 now stack none := by
  obtain ⟨h10, h0, _⟩ := (wellFormed_append_newline_iff _).mp hline
  have hline2 : WellFormedLine (spaced groups ++ extra ++ rest ++ [10]) := by
    apply wellFormed_append_newline
    · simp only [List.mem_append, not_or] at h10 ⊢
      exact ⟨⟨h10.1, hextra.1⟩, h10.2⟩
    · simp only [List.mem_append, not_or] at h0 ⊢
      exact ⟨⟨h0.1, hextra.2⟩, h0.2⟩
    · simp only [List.length_append, List.length_cons, List.length_nil] at hlen ⊢
      omega
  have c1 := check_of_lines h md5 w1 now stack ls _ hls hline
    (by simp [MAX_LICENSE_LINES]; omega) hopen1
  have c2 := check_of_lines h md5 w2 now stack ls _ hls hline2
    (by simp [MAX_LICENSE_LINES]; omega) hopen2
  have e1 : spaced groups ++ rest ++ [10] = spaced groups ++ (rest ++ [10]) := by simp
  have e2 : spaced groups ++ extra ++ rest ++ [10] = spaced groups ++ (extra ++ rest ++ [10]) := by
    simp
  rw [e1, decodeLoop_sixteen_groups groups _ _ hgroups hhex (uninitialized_length stack)] at c1
  rw [e2, decodeLoop_sixteen_groups groups _ _ hgroups hhex (uninitialized_length stack)] at c2
  simp only at c1 c2
  rw [c1] at haccepted
  rw [c1, c2]
  by_cases hm : memcmp (md5.digest (ls.flatten ++ LICENSE_SECRET))
      (groups.map (fun g => pairByte g.2.1 g.2.2)) MD5_SIZE ≠ 0
  · rw [if_pos hm, if_pos hm]
  · rw [if_neg hm, if_neg hm]
    rw [if_neg hm] at haccepted
    cases hfind : findExpiresAfterDate ls.flatten with
    | none => rfl
    | some ea =>
      rw [hfind] at haccepted
      simp only at haccepted ⊢
      by_cases hc : compareDates (ea.map (fun p => ls.flatten.drop p)) now = 0
      · rw [if_pos hc, if_pos hc]
        rw [if_pos hc] at haccepted
        rcases haccepted with ⟨r, hr, hnone⟩ | ⟨ha, hb⟩
        · simp only [Option.some.injEq] at hr
          subst hr
          simp at hnone
        · rw [ha, hb]
      · rw [if_neg hc, if_neg hc]

set_option maxRecDepth 100000 in
/-- Witness of C18: the body `hello`, its digest line, which is accepted, and
the same digest line followed by the text ` (checked)`. -/
theorem extra_characters_after_digest_witness :
    ((∀ l ∈ [bytes "hello\n"], WellFormedLine l) ∧ [bytes "hello\n"].length ≤ 29
      ∧ sampleGroups.length = 16
      ∧ (∀ g ∈ sampleGroups, isUpperHex g.2.1 = true ∧ isUpperHex g.2.2 = true)
      ∧ WellFormedLine (spaced sampleGroups ++ [] ++ [10])
      ∧ (10 ∉ bytes " (checked)" ∧ 0 ∉ bytes " (checked)")
      ∧ (spaced sampleGroups ++ bytes " (checked)" ++ [] ++ [10]).length ≤ 1023)
    ∧ passenger_enterprise_license_check sampleHeader sampleMD5
        (fileWorld ([bytes "hello\n"].flatten
          ++ (spaced sampleGroups ++ bytes " (checked)" ++ [] ++ [10])))
        ⟨124, 0, 1⟩ (fun _ => 0) none
      = passenger_enterprise_license_check sampleHeader sampleMD5
        (fileWorld ([bytes "hello\n"].flatten ++ (spaced sampleGroups ++ [] ++ [10])))
        ⟨124, 0, 1⟩ (fun _ => 0) none
    ∧ passenger_enterprise_license_check sampleHeader sampleMD5
        (fileWorld ([bytes "hello\n"].flatten ++ (spaced sampleGroups ++ [] ++ [10])))
        ⟨124, 0, 1⟩ (fun _ => 0) none
      = some ⟨none, some (bytes "hello\n"), true⟩ :=
  ⟨⟨by decide, by decide, by decide, by decide, by decide, by decide, by decide⟩,
    extra_characters_after_digest sampleHeader sampleMD5
      (fileWorld ([bytes "hello\n"].flatten ++ (spaced sampleGroups ++ [] ++ [10])))
      (fileWorld ([bytes "hello\n"].flatten
        ++ (spaced sampleGroups ++ bytes " (checked)" ++ [] ++ [10])))
      ⟨124, 0, 1⟩ (fun _ => 0) [bytes "hello\n"] sampleGroups [] (bytes " (checked)")
      (by decide) (by decide) (by decide) (by decide) (by decide) (by decide) (by decide)
      (by rfl) (by rfl) (Or.inl ⟨⟨none, some (bytes "hello\n"), true⟩, by decide, rfl⟩),
    by decide⟩

set_option maxRecDepth 100000 in
/-- Counterexample to C18 as stated: the body `hello` with its digest line is
accepted; with a NUL character inserted after the 32nd digit of the last line
the check reports a corrupted file. -/
theorem extra_characters_after_digest_counterexample :
    passenger_enterprise_license_check sampleHeader sampleMD5
        (fileWorld (bytes "hello\n"
          ++ uppercaseHex (sampleMD5.digest (bytes "hello\n" ++ LICENSE_SECRET)) ++ [10]))
        ⟨124, 0, 1⟩ (fun _ => 0) none
      = some ⟨none, some (bytes "hello\n"), true⟩
    ∧ 10 ∉ [0]
    ∧ passenger_enterprise_license_check sampleHeader sampleMD5
        (fileWorld (bytes "hello\n"
          ++ uppercaseHex (sampleMD5.digest (bytes "hello\n" ++ LICENSE_SECRET)) ++ [0]
          ++ [10]))
        ⟨124, 0, 1⟩ (fun _ => 0) none
      = some ⟨some (msgCorrupted sampleHeader), none, true⟩ := by
  decide

/-! ## The line buffer: C19 -/

theorem readChunk_full (chunk rest : List Nat) (h10 : 10 ∉ chunk) :
    readChunk chunk.length (chunk ++ rest) = (chunk, rest) := by
  induction chunk with
  | nil => simp [readChunk]
  | cons c chunk ih =>
    have hc : c ≠ 10 := fun h => h10 (by simp [h])
    have ht : 10 ∉ chunk := fun h => h10 (by simp [h])
    have := ih ht
    show readChunk (chunk.length + 1) (c :: (chunk ++ rest)) = _
    rw [readChunk, if_neg hc, this]

theorem fgets_long {chunk : List Nat} (hlen : chunk.length = 1023) (h10 : 10 ∉ chunk)
    (rest : List Nat) (io : Bool) :
    fgets 1024 ⟨chunk ++ rest, io⟩ = some (chunk, ⟨rest, io⟩) := by
  have h := readChunk_full chunk rest h10
  rw [hlen] at h
  simp [fgets, h, hlen]

theorem readLoop_long_line (h : LicenseH) (io : Bool) (chunk rest : List Nat)
    (hlen : chunk.length = 1023) (h10 : 10 ∉ chunk) (ls : List (List Nat)) :
    ∀ (acc : List (List Nat)) (fuel : Nat),
      (∀ l ∈ ls, TerminatedLine l) →
      acc.length ≤ MAX_LICENSE_LINES → MAX_LICENSE_LINES + 1 ≤ fuel + acc.length →
      readLoop h fuel ⟨ls.flatten ++ (chunk ++ rest), io⟩ acc
        = some (.error (msgCorrupted h)) := by
  induction ls with
  | nil =>
    intro acc fuel _ hcount hfuel
    obtain ⟨fuel, rfl⟩ : ∃ k, fuel = k + 1 := ⟨fuel - 1, by omega⟩
    rw [List.flatten_nil, List.nil_append, readLoop, fgets_long hlen h10]
    simp only
    have hc : (cstr chunk).length = 0 ∨ (cstr chunk).getD ((cstr chunk).length - 1) 0 ≠ 10 := by
      by_contra hn
      exact h10 (cstr_last_mem hn)
    rw [if_pos (by rcases hc with hc | hc
                   · exact Or.inl hc
                   · exact Or.inr (Or.inl hc))]
  | cons l ls ih =>
    intro acc fuel hterm hcount hfuel
    obtain ⟨fuel, rfl⟩ : ∃ k, fuel = k + 1 := ⟨fuel - 1, by omega⟩
    rw [List.flatten_cons, List.append_assoc, readLoop,
      fgets_line (hterm l (List.mem_cons_self _ _))]
    simp only
    by_cases hc : (cstr l).length = 0 ∨ (cstr l).getD ((cstr l).length - 1) 0 ≠ 10
        ∨ acc.length ≥ MAX_LICENSE_LINES
    · rw [if_pos hc]
    · rw [if_neg hc]
      have hlt : acc.length < MAX_LICENSE_LINES := by
        apply Nat.lt_of_not_ge
        exact fun hh => hc (Or.inr (Or.inr hh))
      exact ih (acc ++ [cstr l]) fuel (fun x hx => hterm x (List.mem_cons_of_mem _ hx))
        (by simp; omega) (by simp; omega)

/-- A source of at most 29 well-formed body lines and the correct digest line is
accepted or rejected as expired; it is not reported as corrupted. -/
theorem correct_digest_not_corrupted (h : LicenseH) (md5 : MD5) (w : World) (now : Tm)
    (stack : Nat → Nat) (ls : List (List Nat))
    (hls : ∀ l ∈ ls, WellFormedLine l) (hcount : ls.length ≤ 29)
    (hopen : open_license_file w = some ⟨licenseSource md5 ls.flatten, false⟩) :
    ∃ r, passenger_enterprise_license_check h md5 w now stack none = some r
      ∧ r.message ≠ some (msgCorrupted h)
      ∧ (r = ⟨none, some ls.flatten, true⟩
          ∨ ∃ a b, r = ⟨some (msgExpiredAfterFree h a b), none, true⟩) := by
  have hd := md5.size_eq (ls.flatten ++ LICENSE_SECRET)
  have hb := md5.byte_lt (ls.flatten ++ LICENSE_SECRET)
  rw [licenseSource, List.append_assoc] at hopen
  rw [check_of_lines h md5 w now stack ls _ hls (digestLine_wellFormed _ hd hb)
    (by simp [MAX_LICENSE_LINES]; omega) hopen]
  rw [decodeLoop_uppercaseHex _ _ _ hd hb (uninitialized_length stack)]
  have hm := (memcmp_eq_zero_iff MD5_SIZE _ _ hd hd).mpr rfl
  simp only [hm, ne_eq, not_true_eq_false, if_false]
  obtain ⟨ea, hea, _⟩ := findExpiresAfterDate_total
    (flatten_getLast ls (fun l hl => (hls l hl).1.1))
  rw [hea]
  simp only
  split_ifs
  · refine ⟨_, rfl, ?_, Or.inr ⟨_, _, rfl⟩⟩
    simp only [ne_eq, Option.some.injEq]
    exact msgExpired_ne_msgCorrupted h _ _
  · exact ⟨_, rfl, by simp, Or.inl rfl⟩

/-- C19: a source in which, after lines that fit the buffer, a physical line
starts with 1023 bytes without a newline (it is longer than 1023 bytes with its
terminator) is rejected as corrupted, whatever follows, the correct digest line
included; a source of at most 29 well-formed body lines, one of them of exactly
1023 bytes with its terminator, and the correct digest line is not: it is
accepted with the body retained, or rejected as expired. -/
theorem line_length_limit (h : LicenseH) (md5 : MD5) (w : World) (now : Tm)
    (stack : Nat → Nat) (ls : List (List Nat)) (chunk rest : List Nat) :
    ((∀ l ∈ ls, TerminatedLine l) → chunk.length = 1023 → 10 ∉ chunk →
      ∀ io, open_license_file w = some ⟨ls.flatten ++ (chunk ++ rest), io⟩ →
        passenger_enterprise_license_check h md5 w now stack none
          = some ⟨some (msgCorrupted h), none, true⟩)
    ∧ ((∀ l ∈ ls, WellFormedLine l) → ls.length ≤ 29 → (∃ l ∈ ls, l.length = 1023) →
      open_license_file w = some ⟨licenseSource md5 ls.flatten, false⟩ →
        ∃ r, passenger_enterprise_license_check h md5 w now stack none = some r
          ∧ r.message ≠ some (msgCorrupted h)
          ∧ (r = ⟨none, some ls.flatten, true⟩
              ∨ ∃ a b, r = ⟨some (msgExpiredAfterFree h a b), none, true⟩)) := by
  constructor
  · intro hterm hlen h10 io hopen
    have hread := readLoop_long_line h io chunk rest hlen h10 ls [] (MAX_LICENSE_LINES + 1)
      hterm (by simp) (by simp)
    unfold passenger_enterprise_license_check
    simp only [hopen, hread]
  · intro hls hcount _ hopen
    exact correct_digest_not_corrupted h md5 w now stack ls hls hcount hopen

theorem replicate_no_newline (n : Nat) : 10 ∉ List.replicate n 97 :=
  fun hm => absurd (List.eq_of_mem_replicate hm) (by decide)

theorem replicate_line_wellFormed (n : Nat) (hn : n + 1 ≤ 1023) :
    WellFormedLine (List.replicate n 97 ++ [10]) :=
  wellFormed_append_newline (replicate_no_newline n)
    (fun hm => absurd (List.eq_of_mem_replicate hm) (by decide))
    (by rw [List.length_replicate]; exact hn)

/-- Witness of C19: a line of 1023 letters `a` and a newline (1024 bytes)
followed by its correct digest line is rejected as corrupted; a line of 1022
letters `a` and a newline (1023 bytes) followed by its digest line is not. -/
theorem line_length_limit_witness :
    ((∀ l ∈ ([] : List (List Nat)), TerminatedLine l)
      ∧ (List.replicate 1023 97).length = 1023 ∧ 10 ∉ List.replicate 1023 97
      ∧ ([] : List (List Nat)).flatten ++ (List.replicate 1023 97
          ++ ([10] ++ uppercaseHex (sampleMD5.digest (List.replicate 1023 97 ++ [10]
                ++ LICENSE_SECRET)) ++ [10]))
        = licenseSource sampleMD5 (List.replicate 1023 97 ++ [10])
      ∧ (∀ l ∈ [List.replicate 1022 97 ++ [10]], WellFormedLine l)
      ∧ [List.replicate 1022 97 ++ [10]].length ≤ 29
      ∧ (∃ l ∈ [List.replicate 1022 97 ++ [10]], l.length = 1023))
    ∧ passenger_enterprise_license_check sampleHeader sampleMD5
        (fileWorld (([] : List (List Nat)).flatten ++ (List.replicate 1023 97
          ++ ([10] ++ uppercaseHex (sampleMD5.digest (List.replicate 1023 97 ++ [10]
                ++ LICENSE_SECRET)) ++ [10]))))
        ⟨124, 0, 1⟩ (fun _ => 0) none
      = some ⟨some (msgCorrupted sampleHeader), none, true⟩
    ∧ ∃ r, passenger_enterprise_license_check sampleHeader sampleMD5
        (fileWorld (licenseSource sampleMD5 [List.replicate 1022 97 ++ [10]].flatten))
        ⟨124, 0, 1⟩ (fun _ => 0) none = some r
      ∧ r.message ≠ some (msgCorrupted sampleHeader)
      ∧ (r = ⟨none, some [List.replicate 1022 97 ++ [10]].flatten, true⟩
          ∨ ∃ a b, r = ⟨some (msgExpiredAfterFree sampleHeader a b), none, true⟩) :=
  ⟨⟨fun l hl => absurd hl (List.not_mem_nil l), List.length_replicate _ _,
      replicate_no_newline 1023,
      by simp only [licenseSource, List.flatten_nil, List.nil_append, List.append_assoc],
      fun l hl => List.mem_singleton.mp hl ▸ replicate_line_wellFormed 1022 (by decide),
      Nat.le_of_ble_eq_true rfl,
      ⟨_, List.mem_singleton_self _, by
        rw [List.length_append, List.length_replicate, List.length_singleton]⟩⟩,
    (line_length_limit sampleHeader sampleMD5
      (fileWorld (([] : List (List Nat)).flatten ++ (List.replicate 1023 97
        ++ ([10] ++ uppercaseHex (sampleMD5.digest (List.replicate 1023 97 ++ [10]
              ++ LICENSE_SECRET)) ++ [10]))))
      ⟨124, 0, 1⟩ (fun _ => 0) [] (List.replicate 1023 97)
      ([10] ++ uppercaseHex (sampleMD5.digest (List.replicate 1023 97 ++ [10]
            ++ LICENSE_SECRET)) ++ [10])).1
      (fun l hl => absurd hl (List.not_mem_nil l)) (List.length_replicate _ _)
      (replicate_no_newline 1023) false (by rfl),
    (line_length_limit sampleHeader sampleMD5
      (fileWorld (licenseSource sampleMD5 [List.replicate 1022 97 ++ [10]].flatten))
      ⟨124, 0, 1⟩ (fun _ => 0) [List.replicate 1022 97 ++ [10]] [] []).2
      (fun l hl => List.mem_singleton.mp hl ▸ replicate_line_wellFormed 1022 (by decide))
      (Nat.le_of_ble_eq_true rfl)
      ⟨_, List.mem_singleton_self _, by
        rw [List.length_append, List.length_replicate, List.length_singleton]⟩ (by rfl)⟩

/-! ## Bounds of the decoder: C20 -/

theorem decodeLoopChecked_total {line : List Nat} (hs : line.getLast? = some 10) :
    ∀ (fuel data cur : Nat) (rd : List Nat), MD5_SIZE + 1 ≤ fuel + cur → cur ≤ MD5_SIZE →
      rd.length = MD5_SIZE →
      ∃ r reads writes, decodeLoopChecked line fuel data rd cur = some (r, reads, writes)
        ∧ decodeLoop line fuel data rd cur = some r
        ∧ r.length = MD5_SIZE
        ∧ (∀ i ∈ reads, i ≤ line.length)
        ∧ (∀ j ∈ writes, cur ≤ j ∧ j < MD5_SIZE)
        ∧ writes.length + cur ≤ MD5_SIZE := by
  intro fuel
  induction fuel with
  | zero => intro data cur rd hfuel hcur _; omega
  | succ fuel ih =>
    intro data cur rd hfuel hcur hrd
    rw [decodeLoopChecked, decodeLoop]
    by_cases h1 : data < line.length
    · by_cases h2 : line.getD data 0 ≠ 10 ∧ cur < MD5_SIZE
      · rw [if_pos h1, if_pos h2, if_pos ⟨h1, h2.1, h2.2⟩]
        obtain ⟨q, hq, hq1, hq2, hq3, _⟩ :=
          skipSpaces_total hs (line.length + 1) data (by omega) (by omega)
        have hq4 := hq3 h1
        rw [hq]
        simp only [charAt, if_pos hq2, if_pos (show q + 1 ≤ line.length by omega)]
        rw [if_pos (by omega)]
        obtain ⟨r, reads, writes, hc, hd, hlen, hreads, hwrites, hn⟩ :=
          ih (q + 2) (cur + 1) (rd.set cur (pairByte (line.getD q 0) (line.getD (q + 1) 0)))
            (by omega) (by omega) (by simpa using hrd)
        rw [hc, hd]
        refine ⟨_, _, _, rfl, rfl, hlen, ?_, ?_, ?_⟩
        · intro i hi
          simp only [List.cons_append, List.mem_cons, List.mem_append, List.mem_range'_1,
            List.not_mem_nil, or_false] at hi
          rcases hi with hi | (hi | hi | hi) | hi
          · omega
          · omega
          · omega
          · omega
          · exact hreads i hi
        · intro j hj
          simp only [List.mem_cons] at hj
          rcases hj with hj | hj
          · omega
          · have := hwrites j hj; omega
        · simp only [List.length_cons]; omega
      · rw [if_pos h1, if_neg h2, if_neg (fun hh => h2 ⟨hh.2.1, hh.2.2⟩)]
        refine ⟨rd, [data], [], rfl, rfl, hrd, ?_, ?_, ?_⟩
        · intro i hi
          simp only [List.mem_singleton] at hi
          omega
        · intro j hj; cases hj
        · simpa using hcur
    · rw [if_neg h1, if_neg (fun hh => h1 hh.1)]
      refine ⟨rd, [], [], rfl, rfl, hrd, ?_, ?_, ?_⟩
      · intro i hi; cases hi
      · intro j hj; cases hj
      · simpa using hcur

/-- The line that the check hands to the decoder ends in a newline. -/
theorem readLoop_last_line (h : LicenseH) (f : File) (lines : List (List Nat))
    (hread : readLoop h (MAX_LICENSE_LINES + 1) f [] = some (.ok lines))
    (hcount : lines.length ≠ 0) :
    (lines.getD (lines.length - 1) []).getLast? = some 10 := by
  obtain ⟨r, hr, _, hok⟩ := readLoop_spec h (MAX_LICENSE_LINES + 1) f [] (by simp)
    (by simp) (by simp)
  rw [hread] at hr
  simp only [Option.some.injEq] at hr
  have hlt : lines.length - 1 < lines.length := by omega
  have hmem : lines.getD (lines.length - 1) [] ∈ lines := by
    rw [List.getD_eq_getElem _ _ hlt]
    exact List.getElem_mem _
  exact (hok lines hr.symm _ hmem).1

/-- C20: on every last line that ends in a newline, whatever else it holds, the
decoding loop with checked accesses returns, with the result of the loop: every
offset of the line that it reads is at most the length of the line (the offset
of the NUL), and it writes at most 16 bytes, each at an offset below 16 of
`readDigest`. -/
theorem decoder_stays_in_bounds (line rd : List Nat) (hline : line.getLast? = some 10)
    (hrd : rd.length = MD5_SIZE) :
    ∃ r reads writes,
      decodeLoopChecked line (MD5_SIZE + 1) 0 rd 0 = some (r, reads, writes)
        ∧ decodeLoop line (MD5_SIZE + 1) 0 rd 0 = some r
        ∧ (∀ i ∈ reads, i ≤ line.length)
        ∧ (∀ j ∈ writes, j < MD5_SIZE)
        ∧ writes.length ≤ MD5_SIZE ∧ r.length = MD5_SIZE := by
  obtain ⟨r, reads, writes, hc, hd, hlen, hreads, hwrites, hn⟩ :=
    decodeLoopChecked_total hline (MD5_SIZE + 1) 0 0 rd (by simp) (by simp) hrd
  exact ⟨r, reads, writes, hc, hd, hreads, fun j hj => (hwrites j hj).2, by omega, hlen⟩

set_option maxRecDepth 100000 in
/-- Witness of C20: the line made of a space, `A`, a space and the newline. -/
theorem decoder_stays_in_bounds_witness :
    ((bytes " A \n").getLast? = some 10 ∧ (List.replicate 16 0).length = MD5_SIZE)
    ∧ (∃ r reads writes,
        decodeLoopChecked (bytes " A \n") (MD5_SIZE + 1) 0 (List.replicate 16 0) 0
            = some (r, reads, writes)
          ∧ decodeLoop (bytes " A \n") (MD5_SIZE + 1) 0 (List.replicate 16 0) 0 = some r
          ∧ (∀ i ∈ reads, i ≤ (bytes " A \n").length)
          ∧ (∀ j ∈ writes, j < MD5_SIZE)
          ∧ writes.length ≤ MD5_SIZE ∧ r.length = MD5_SIZE)
    ∧ decodeLoopChecked (bytes " A \n") (MD5_SIZE + 1) 0 (List.replicate 16 0) 0
        = some (233 :: List.replicate 15 0, [0, 0, 1, 1, 2, 3], [0]) :=
  ⟨⟨by decide, by decide⟩,
    decoder_stays_in_bounds (bytes " A \n") (List.replicate 16 0) (by decide) (by decide),
    by decide⟩

end License
